import Mathlib

/-!
Verification development for the `unas-automation` repository.

We shallowly embed the Excel/ledger manipulation core of the repository
(`src/src/unas_helper.py`, `src/src/unas_actions.py`, `src/src/handle_excel.py`)
into Lean and prove or refute the documented properties.

Modelling conventions:
* an openpyxl cell value is a `Val` (string, integer, or the `None` cell);
* a worksheet (`Sheet`) is the list of its rows, each row the list of its
  cell values in column order; rows and columns are 1-indexed in lemma
  statements, matching openpyxl;
* a workbook is an ordered association list from sheet name to sheet;
* a `pandas` dataframe of the pipeline is `Df`: a column-name list plus rows
  of string values aligned to the columns (every value the pipeline puts in
  a dataframe is a string produced by `txt`, or the `""` fill of `reindex`);
* Python dates are embedded as their proleptic-Gregorian ordinal (an
  integer, `date.toordinal`), so `timedelta(days=k)` is `+ k` and
  `date.weekday()` is `(n - 1) % 7` (ordinal 1 = 0001-01-01, a Monday).
-/

namespace Unas

/-- A cell value of the workbook: openpyxl stores `None` for an untouched
cell, and the pipeline writes strings and integers. -/
inductive Val where
  | vNone : Val
  | vStr : String → Val
  | vInt : Int → Val
  deriving DecidableEq, Repr

/-- A worksheet row: the list of cell values in column order. -/
abbrev Row := List Val

/-- A worksheet: the list of its rows, top to bottom. -/
abbrev Sheet := List Row

/-- A workbook: ordered association list, sheet name to sheet
(`wb.sheetnames` order). -/
abbrev Workbook := List (String × Sheet)

/-- 1-indexed cell read: `ws.cell(row=r, column=c).value`; absent cells read
as `None`, as in openpyxl. -/
def cellVal (ws : Sheet) (r c : Nat) : Val :=
  ((ws.getD (r - 1) []).getD (c - 1) Val.vNone)

/-- First-column value of a row (`ws.cell(row=r, column=1).value`). -/
def firstCell (row : Row) : Val :=
  row.getD 0 Val.vNone

/-- Sheet lookup in a workbook (`wb[sheet_name]`). -/
def wbSheet (wb : Workbook) (name : String) : Option Sheet :=
  (wb.find? (fun p => p.1 == name)).map Prod.snd

/-- `sheet_name in wb.sheetnames`. -/
def wbHasSheet (wb : Workbook) (name : String) : Bool :=
  wb.any (fun p => p.1 == name)

/-- Replace the contents of a named sheet in a workbook. -/
def wbSetSheet (wb : Workbook) (name : String) (ws : Sheet) : Workbook :=
  wb.map (fun p => if p.1 == name then (name, ws) else p)

/-!  ## Date arithmetic (`datetime.date` via proleptic-Gregorian ordinals) -/

/-- `date.weekday()` on the ordinal embedding: ordinal 1 (0001-01-01) is a
Monday (weekday 0). Python's `%` on a positive modulus and Lean's
`Int.emod` both return a value in `[0, 7)`. -/
def pyWeekday (n : Int) : Int := (n - 1) % 7

/-- Recursion core of `weekly_ranges_between` (`src/src/unas_helper.py`):
the `while cur_start <= end_dt` loop, with `cur_start = c` stepping by 7.
Each iteration appends `(max(cur_start, start_dt), min(cur_start + 6, end_dt))`. -/
def weeklyRangesAux (startDt endDt : Int) (c : Int) : List (Int × Int) :=
  if h : c ≤ endDt then
    (max c startDt, min (c + 6) endDt) :: weeklyRangesAux startDt endDt (c + 7)
  else
    []
termination_by (endDt + 1 - c).toNat
decreasing_by
  omega

/-- `weekly_ranges_between(start_dt, end_dt)`: Monday–Sunday windows covering
the interval, the first and last clipped to it. -/
def weeklyRangesBetween (startDt endDt : Int) : List (Int × Int) :=
  let firstMonday := startDt - pyWeekday startDt
  weeklyRangesAux startDt endDt firstMonday

lemma weeklyRangesAux_cons (s e c : Int) (h : c ≤ e) :
    weeklyRangesAux s e c =
      (max c s, min (c + 6) e) :: weeklyRangesAux s e (c + 7) := by
  rw [weeklyRangesAux]
  simp [h]

lemma weeklyRangesAux_nil (s e c : Int) (h : ¬ c ≤ e) :
    weeklyRangesAux s e c = [] := by
  rw [weeklyRangesAux]
  simp [h]

/-- The `i`-th window produced by the loop, in closed form: it exists iff
the `i`-th Monday `c + 7*i` is still `≤ end_dt`, and is then the window of
that Monday, start clipped to `start_dt` and end clipped to `end_dt`. -/
lemma weeklyRangesAux_get? (s e : Int) :
    ∀ (i : Nat) (c : Int),
      (weeklyRangesAux s e c).get? i =
        if c + 7 * (i : Int) ≤ e then
          some (max (c + 7 * (i : Int)) s, min (c + 7 * (i : Int) + 6) e)
        else none := by
  intro i
  induction i with
  | zero =>
    intro c
    by_cases h : c ≤ e
    · rw [weeklyRangesAux_cons s e c h]
      simp [h]
    · rw [weeklyRangesAux_nil s e c h]
      simp [h]
  | succ i ih =>
    intro c
    by_cases h : c ≤ e
    · rw [weeklyRangesAux_cons s e c h]
      rw [List.get?_cons_succ, ih (c + 7)]
      have harith : c + 7 + 7 * (i : Int) = c + 7 * (((i : Nat) + 1 : Nat) : Int) := by
        push_cast
        ring
      rw [harith]
    · have hcond : ¬ (c + 7 * (((i : Nat) + 1 : Nat) : Int) ≤ e) := by
        push_cast
        omega
      rw [weeklyRangesAux_nil s e c h, List.get?_nil, if_neg hcond]

/-- Which indices exist: the `i`-th window exists iff `c + 7*i ≤ end_dt`. -/
lemma weeklyRangesAux_length_iff (s e : Int) (i : Nat) (c : Int) :
    i < (weeklyRangesAux s e c).length ↔ c + 7 * (i : Int) ≤ e := by
  constructor
  · intro hi
    by_contra hcon
    have h1 := weeklyRangesAux_get? s e i c
    rw [if_neg hcon, List.get?_eq_get hi] at h1
    exact Option.noConfusion h1
  · intro hle
    by_contra hcon
    have h1 := weeklyRangesAux_get? s e i c
    rw [if_pos hle, List.get?_eq_none.mpr (Nat.le_of_not_lt hcon)] at h1
    exact Option.noConfusion h1

/-- `get` form of `weeklyRangesAux_get?`. -/
lemma weeklyRangesAux_get (s e : Int) (i : Nat) (c : Int)
    (hi : i < (weeklyRangesAux s e c).length) :
    (weeklyRangesAux s e c).get ⟨i, hi⟩ =
      (max (c + 7 * (i : Int)) s, min (c + 7 * (i : Int) + 6) e) := by
  have h2 : c + 7 * (i : Int) ≤ e := (weeklyRangesAux_length_iff s e i c).mp hi
  have h1 := weeklyRangesAux_get? s e i c
  rw [if_pos h2, List.get?_eq_get hi] at h1
  exact Option.some.inj h1

/-- C8 helper: the first Monday is at most `start_dt`, the window of the
first Monday still contains `start_dt`, and it is indeed a Monday. -/
lemma firstMonday_facts (s : Int) :
    s - pyWeekday s ≤ s ∧ s ≤ s - pyWeekday s + 6 ∧
      pyWeekday (s - pyWeekday s) = 0 := by
  unfold pyWeekday
  omega

/-- C8: for `start ≤ end`, `weekly_ranges_between` yields nonempty,
consecutive, pairwise-disjoint windows starting at `start`, ending at `end`,
covering exactly `[start, end]`; every window except possibly the first
begins on a Monday and every window except possibly the last ends on a
Sunday. -/
theorem claim_C8_weekly_partition (s e : Int) (h : s ≤ e) :
    (weeklyRangesBetween s e ≠ []) ∧
    (∀ (i : Nat) (hi : i < (weeklyRangesBetween s e).length),
        ((weeklyRangesBetween s e).get ⟨i, hi⟩).1 ≤
          ((weeklyRangesBetween s e).get ⟨i, hi⟩).2) ∧
    (∀ (i : Nat) (hi : i + 1 < (weeklyRangesBetween s e).length)
        (hi' : i < (weeklyRangesBetween s e).length),
        ((weeklyRangesBetween s e).get ⟨i + 1, hi⟩).1 =
          ((weeklyRangesBetween s e).get ⟨i, hi'⟩).2 + 1) ∧
    (∀ (i j : Nat) (hi : i < (weeklyRangesBetween s e).length)
        (hj : j < (weeklyRangesBetween s e).length), i < j →
        ((weeklyRangesBetween s e).get ⟨i, hi⟩).2 <
          ((weeklyRangesBetween s e).get ⟨j, hj⟩).1) ∧
    (∀ d : Int, (s ≤ d ∧ d ≤ e) ↔
        ∃ w ∈ weeklyRangesBetween s e, w.1 ≤ d ∧ d ≤ w.2) ∧
    (∀ hne : (weeklyRangesBetween s e) ≠ [],
        ((weeklyRangesBetween s e).head hne).1 = s) ∧
    (∀ hne : (weeklyRangesBetween s e) ≠ [],
        ((weeklyRangesBetween s e).getLast hne).2 = e) ∧
    (∀ (i : Nat) (hi : i < (weeklyRangesBetween s e).length), i ≠ 0 →
        pyWeekday ((weeklyRangesBetween s e).get ⟨i, hi⟩).1 = 0) ∧
    (∀ (i : Nat) (hi : i < (weeklyRangesBetween s e).length),
        i ≠ (weeklyRangesBetween s e).length - 1 →
        pyWeekday ((weeklyRangesBetween s e).get ⟨i, hi⟩).2 = 6) := by
  obtain ⟨hfm1, hfm2, hfm3⟩ := firstMonday_facts s
  set fm := s - pyWeekday s with hfm
  have hfm0 : 0 ≤ pyWeekday s := by unfold pyWeekday; omega
  have hrs : weeklyRangesBetween s e = weeklyRangesAux s e fm := rfl
  have hlen : ∀ i : Nat,
      i < (weeklyRangesBetween s e).length ↔ fm + 7 * (i : Int) ≤ e := by
    intro i
    rw [hrs]
    exact weeklyRangesAux_length_iff s e i fm
  have hget : ∀ (i : Nat) (hi : i < (weeklyRangesBetween s e).length),
      (weeklyRangesBetween s e).get ⟨i, hi⟩ =
        (max (fm + 7 * (i : Int)) s, min (fm + 7 * (i : Int) + 6) e) := by
    intro i hi
    have hi2 : i < (weeklyRangesAux s e fm).length := by rw [← hrs]; exact hi
    exact weeklyRangesAux_get s e i fm hi2
  have hne : weeklyRangesBetween s e ≠ [] := by
    have h0 : 0 < (weeklyRangesBetween s e).length := by
      rw [hlen 0]
      push_cast
      omega
    exact List.ne_nil_of_length_pos h0
  have hlength_pos : 0 < (weeklyRangesBetween s e).length :=
    List.length_pos.mpr hne
  refine ⟨hne, ?_, ?_, ?_, ?_, ?_, ?_, ?_, ?_⟩
  · -- each window is a nonempty interval
    intro i hi
    rw [hget i hi]
    have := (hlen i).mp hi
    dsimp only
    omega
  · -- consecutive windows
    intro i hi hi'
    rw [hget (i + 1) hi, hget i hi']
    have h1 := (hlen (i + 1)).mp hi
    push_cast at h1
    dsimp only
    push_cast
    omega
  · -- pairwise disjoint
    intro i j hi hj hij
    rw [hget i hi, hget j hj]
    have hji : (i : Int) + 1 ≤ (j : Int) := by exact_mod_cast hij
    dsimp only
    omega
  · -- union is exactly [s, e]
    intro d
    constructor
    · rintro ⟨hd1, hd2⟩
      have hdfm : 0 ≤ d - fm := by omega
      set q := (d - fm) / 7 with hq
      have hq0 : 0 ≤ q := Int.ediv_nonneg hdfm (by norm_num)
      have hqlo : fm + 7 * q ≤ d := by
        have := Int.emod_nonneg (d - fm) (show (7:Int) ≠ 0 by norm_num)
        have := Int.ediv_add_emod (d - fm) 7
        omega
      have hqhi : d ≤ fm + 7 * q + 6 := by
        have := Int.emod_lt_of_pos (d - fm) (show (0:Int) < 7 by norm_num)
        have := Int.ediv_add_emod (d - fm) 7
        omega
      set i := q.toNat with hi
      have hqi : (i : Int) = q := Int.toNat_of_nonneg hq0
      have hilen : i < (weeklyRangesBetween s e).length := by
        rw [hlen i, hqi]
        omega
      refine ⟨(weeklyRangesBetween s e).get ⟨i, hilen⟩, List.get_mem _ _ _, ?_⟩
      rw [hget i hilen]
      dsimp only
      rw [hqi]
      omega
    · rintro ⟨w, hw, hw1, hw2⟩
      obtain ⟨⟨i, hilen⟩, rfl⟩ := List.mem_iff_get.mp hw
      rw [hget i hilen] at hw1 hw2
      dsimp only at hw1 hw2
      omega
  · -- first window starts at s
    intro hne'
    have hh : (weeklyRangesBetween s e).head hne' =
        (weeklyRangesBetween s e).get ⟨0, hlength_pos⟩ := by
      rw [List.head_eq_getElem_zero hne', List.get_eq_getElem]
    rw [hh, hget 0 hlength_pos]
    dsimp only
    push_cast
    omega
  · -- last window ends at e
    intro hne'
    have hh : (weeklyRangesBetween s e).getLast hne' =
        (weeklyRangesBetween s e).get
          ⟨(weeklyRangesBetween s e).length - 1, by omega⟩ := by
      rw [List.getLast_eq_getElem, List.get_eq_getElem]
    rw [hh, hget _ _]
    have hnot : ¬ ((weeklyRangesBetween s e).length - 1) + 1 <
        (weeklyRangesBetween s e).length := by omega
    rw [hlen (((weeklyRangesBetween s e).length - 1) + 1)] at hnot
    dsimp only
    push_cast at hnot ⊢
    omega
  · -- non-first windows begin on a Monday
    intro i hi hi0
    rw [hget i hi]
    have h1 : 1 ≤ (i : Int) := by exact_mod_cast Nat.one_le_iff_ne_zero.mpr hi0
    dsimp only
    unfold pyWeekday at hfm3 ⊢
    omega
  · -- non-last windows end on a Sunday
    intro i hi hilast
    rw [hget i hi]
    have hsucc : i + 1 < (weeklyRangesBetween s e).length := by omega
    rw [hlen (i + 1)] at hsucc
    push_cast at hsucc
    dsimp only
    unfold pyWeekday at hfm3 ⊢
    omega

/-- Witness for C8 at a concrete interval (ordinals 3..17: a Wednesday
through the Wednesday two weeks later). -/
theorem claim_C8_weekly_partition_witness :
    (3 : Int) ≤ 17 ∧ weeklyRangesBetween 3 17 ≠ [] :=
  ⟨by norm_num, (claim_C8_weekly_partition 3 17 (by norm_num)).1⟩

/-!  ## Python string primitives used by the label scanner

`_existing_week_labels_in_sheet` relies on `str.startswith`, `str.replace`
(replace **all** non-overlapping occurrences, left to right) and
`str.strip`.  We embed the latter two to character lists. -/

/-- `str.startswith(pre)`: structural prefix test on the character lists
(evaluates by kernel reduction, unlike `String.isPrefixOf`). -/
def strStartsWith (pre s : String) : Bool :=
  pre.data.isPrefixOf s.data

/-- Whitespace for `str.strip` (ASCII whitespace as stripped by Python). -/
def isPySpace (c : Char) : Bool :=
  c == ' ' || c == '\t' || c == '\n' || c == '\r' || c == '\x0b' || c == '\x0c'

/-- `str.strip()` on a character list. -/
def pyStripChars (l : List Char) : List Char :=
  ((l.dropWhile isPySpace).reverse.dropWhile isPySpace).reverse

/-- `str.strip()`. -/
def pyStrip (s : String) : String :=
  String.mk (pyStripChars s.data)

/-- Fuel-indexed core of `str.replace`: each step consumes at least one
character, so fuel `s.length` always suffices (structural recursion on the
fuel keeps the function kernel-reducible). -/
def pyReplaceCharsFuel (pat rep : List Char) : Nat → List Char → List Char
  | 0, s => s
  | _ + 1, [] => []
  | fuel + 1, c :: rest =>
    if pat.isPrefixOf (c :: rest) && !pat.isEmpty then
      rep ++ pyReplaceCharsFuel pat rep fuel ((c :: rest).drop pat.length)
    else
      c :: pyReplaceCharsFuel pat rep fuel rest

/-- `str.replace(old, new)` on character lists: replace every non-overlapping
occurrence of `pat`, scanning left to right.  (Never called with an empty
pattern in the source; for `pat = []` this copies the input.) -/
def pyReplaceChars (pat rep : List Char) (s : List Char) : List Char :=
  pyReplaceCharsFuel pat rep s.length s

/-- `s.replace(pat, rep)`. -/
def pyReplace (s pat rep : String) : String :=
  String.mk (pyReplaceChars pat.data rep.data s.data)

/-!  ## `src/src/unas_helper.py`: label scanning and headers -/

/-- One step of `_existing_week_labels_in_sheet`: from a first-column cell
value, the week label it contributes, if any
(`isinstance(val, str) and val.startswith("Week: ")`, then
`val.replace("Week: ", "").strip()`, kept only if non-empty). -/
def weekLabelFromCell (v : Val) : Option String :=
  match v with
  | .vStr s =>
    if strStartsWith "Week: " s then
      let lab := pyStrip (pyReplace s "Week: " "")
      if lab ≠ "" then some lab else none
    else none
  | _ => none

/-- `_existing_week_labels_in_sheet(ws)`: the week labels found in column 1
(the Python code collects them into a set; we keep the scan-order list and
only ever use membership). -/
def existingWeekLabelsInSheet (ws : Sheet) : List String :=
  ws.filterMap (fun row => weekLabelFromCell (firstCell row))

/-- `_get_existing_header(ws)`: the cell values of row 1. -/
def getExistingHeader (ws : Sheet) : List Val :=
  ws.headD []

/-!  ## Dataframes

Every dataframe of this pipeline holds string values (either `txt` output or
the `""` fill of `reindex`); its column labels are the cell values that were
used to build it, so we keep them as `Val` (they are `vStr` in every
reachable case, but an existing sheet's header row is copied verbatim). -/

/-- A pipeline dataframe: column labels plus rows of string values aligned
to the columns. -/
structure Df where
  cols : List Val
  rows : List (List String)
  deriving DecidableEq

/-- `df[c]` as a value list (`c` a string column label). -/
def dfColValues (df : Df) (c : String) : List String :=
  df.rows.map (fun r => r.getD (df.cols.indexOf (Val.vStr c)) "")

/-- `df[c].nunique()`: number of distinct (string) values of column `c`. -/
def dfNunique (df : Df) (c : String) : Nat :=
  (dfColValues df c).dedup.length

/-- The summary count of `prepend_batch_to_excel`
(`src/src/unas_helper.py` lines 303-308): `Order_Key` nunique if that
column is present, else `Order_Id` nunique if present, else `len(df)`. -/
def ordersCountPrepend (df : Df) : Nat :=
  if df.cols.contains (Val.vStr "Order_Key") then dfNunique df "Order_Key"
  else if df.cols.contains (Val.vStr "Order_Id") then dfNunique df "Order_Id"
  else df.rows.length

/-- The summary count of `append_week_block`
(`src/src/unas_helper.py` line 240): `Order_Id` nunique if that column is
present, else `len(df)`. -/
def ordersCountAppend (df : Df) : Nat :=
  if df.cols.contains (Val.vStr "Order_Id") then dfNunique df "Order_Id"
  else df.rows.length

/-!  ## `_open_or_init_wb_with_header` and the segment writers

A "file" is `Option Workbook`: `none` when `os.path.exists` is false.
In `_open_or_init_wb_with_header`, the `if ws.max_row < 1` branch of the
source is dead code (openpyxl's `max_row` is at least 1 even for an empty
sheet), so an existing sheet is returned untouched; a missing sheet is
created with the header as row 1; a missing file becomes a new workbook
with just that sheet. -/
def openOrInitWb (file : Option Workbook) (sheetName : String)
    (headerCols : List Val) : Workbook :=
  match file with
  | some wb =>
    if wbHasSheet wb sheetName then wb
    else wb ++ [(sheetName, [headerCols])]
  | none => [(sheetName, [headerCols])]

/-- `append_week_block(ws, df, label, spacer_rows)`
(`src/src/unas_helper.py` lines 221-247).  The source writes cells at rows
`max_row + 1 ..`, which on a sheet whose `max_row` is its row count appends,
in order: the `"Week: <label>"` marker row, the dataframe rows (no header),
the `"Orders in week:" / count` summary row, and `spacer_rows` rows whose
only written cell is `""` in column 2. -/
def appendWeekBlock (ws : Sheet) (df : Df) (label : String)
    (spacer : Nat) : Sheet :=
  ws ++ ([Val.vStr ("Week: " ++ label)]
      :: df.rows.map (fun r => r.map Val.vStr)
      ++ [[Val.vStr "Orders in week:", Val.vInt (ordersCountAppend df)]]
      ++ List.replicate spacer [Val.vNone, Val.vStr ""])

/-- The row block inserted by `prepend_batch_to_excel`
(`src/src/unas_helper.py` lines 293-312): `insert_rows(idx=2, amount=
1 + n + 1 + spacer)` followed by cell writes into rows `2 .. 2+n+1`, i.e.
the `"Day: <label>"` marker row, the dataframe rows, the
`"Orders on day:" / count` summary row, and `spacer` untouched (fully
empty) inserted rows. -/
def prependDayBlock (df : Df) (label : String) (spacer : Nat) : Sheet :=
  [Val.vStr ("Day: " ++ label)]
    :: df.rows.map (fun r => r.map Val.vStr)
    ++ [[Val.vStr "Orders on day:", Val.vInt (ordersCountPrepend df)]]
    ++ List.replicate spacer []

/-- `prepend_batch_to_excel(df, xlsx_path, batch_label, sheet_name,
spacer_rows)`: open-or-init with `list(df.columns)` as header, insert the
day block directly below row 1, save.  The returned workbook is the saved
file content. -/
def prependBatchToExcel (df : Df) (file : Option Workbook)
    (batchLabel sheetName : String) (spacer : Nat) : Workbook :=
  let wb := openOrInitWb file sheetName df.cols
  let ws := (wbSheet wb sheetName).getD []
  let ws' := ws.take 1 ++ prependDayBlock df batchLabel spacer ++ ws.drop 1
  wbSetSheet wb sheetName ws'

/-- Index (0-based) of the first row satisfying `p`: the
`for r in range(1, ws.max_row + 1)` scan with `break`. -/
def findFirstIdx (p : Row → Bool) : Sheet → Option Nat
  | [] => none
  | r :: rs => if p r then some 0 else (findFirstIdx p rs).map (· + 1)

/-- `val == f"Day: {label}"` on a first-column cell
(`isinstance(val, str)` included). -/
def isDayTarget (label : String) (row : Row) : Bool :=
  match firstCell row with
  | .vStr s => s == "Day: " ++ label
  | _ => false

/-- `isinstance(val, str) and val.startswith("Day: ")` on a first-column
cell. -/
def isDayMarkerRow (row : Row) : Bool :=
  match firstCell row with
  | .vStr s => strStartsWith "Day: " s
  | _ => false

/-- `_find_batch_bounds(ws, label)` (`src/src/unas_helper.py` lines
330-350): 1-indexed `(start, end)` of the labeled day segment; `end` is the
row before the next `"Day: "` marker, or the last row if none follows. -/
def findBatchBounds (ws : Sheet) (label : String) : Option (Nat × Nat) :=
  match findFirstIdx (isDayTarget label) ws with
  | none => none
  | some i =>
    let start := i + 1
    match findFirstIdx isDayMarkerRow (ws.drop start) with
    | none => some (start, ws.length)
    | some j => some (start, start + j)

/-- `ws.delete_rows(start, amount)` (1-indexed `start`). -/
def deleteRows (ws : Sheet) (start amount : Nat) : Sheet :=
  ws.take (start - 1) ++ ws.drop (start - 1 + amount)

/-- `delete_batch_by_label(xlsx_path, sheet_name, label, header_cols)`
(`src/src/unas_helper.py` lines 315-327): open-or-init, locate the segment,
delete exactly rows `start..end` when found; the workbook is saved in both
branches.  Returns the saved workbook and whether a deletion occurred. -/
def deleteBatchByLabel (file : Option Workbook) (sheetName label : String)
    (headerCols : List Val) : Workbook × Bool :=
  let wb := openOrInitWb file sheetName headerCols
  let ws := (wbSheet wb sheetName).getD []
  match findBatchBounds ws label with
  | none => (wb, false)
  | some (s, e) =>
    (wbSetSheet wb sheetName (deleteRows ws s (e - s + 1)), true)

/-!  ## `src/src/unas_helper.py`: XML to dataframe -/

/-- A fetched `<Order>` element, as the pipeline reads it: the mapping from
the XPath expressions used by `txt` to the (stripped) text found there. -/
abbrev Order := List (String × String)

/-- `txt(o, path)`: the stored text, or `""` when the node is missing. -/
def txtO (o : Order) (path : String) : String :=
  ((o.find? (fun p => p.1 == path)).map Prod.snd).getD ""

/-- `ALLOWED_CUSTOMER_GROUPS` (`src/src/unas_helper.py` line 22). -/
def allowedCustomerGroups : List String :=
  ["", "Alapértelmezett", "SAP9-Törzsvásárló"]

/-- `ORDER_COLUMNS` (`src/src/unas_helper.py` lines 29-58): column name to
XPath. -/
def orderColumns : List (String × String) :=
  [("Order_Id", "Id"),
   ("Order_Key", "Key"),
   ("Order_Date", "Date"),
   ("Order_DateMod", "DateMod"),
   ("Order_Status", "Status"),
   ("Order_StatusID", "StatusID"),
   ("Order_Currency", "Currency"),
   ("Order_SumPriceGross", "SumPriceGross"),
   ("Order_Referer", "Referer"),
   ("Order_CustomerEmail", "Customer/Email"),
   ("Order_CustomerName", "Customer/Contact/Name"),
   ("Order_CustomerLang", "Customer/Contact/Lang"),
   ("Order_CustomerGroup", "Customer/Group/Name"),
   ("Order_InvoiceZIP", "Customer/Addresses/Invoice/ZIP"),
   ("Order_InvoiceCity", "Customer/Addresses/Invoice/City"),
   ("Order_InvoiceCountry", "Customer/Addresses/Invoice/Country"),
   ("Order_ShippingZIP", "Customer/Addresses/Shipping/ZIP"),
   ("Order_ShippingCity", "Customer/Addresses/Shipping/City"),
   ("Order_ShippingCountry", "Customer/Addresses/Shipping/Country"),
   ("Order_PaymentName", "Payment/Name"),
   ("Order_PaymentType", "Payment/Type"),
   ("Order_PaymentStatus", "Payment/Status"),
   ("Order_Paid", "Payment/Paid"),
   ("Order_Unpaid", "Payment/Unpaid"),
   ("Order_UTM_Source", "UTM/Source"),
   ("Order_UTM_Medium", "UTM/Medium"),
   ("Order_UTM_Campaign", "UTM/Campaign"),
   ("Order_UTM_Content", "UTM/Content")]

/-- The one record row built from an allowed order:
`{col_name: txt(o, xpath) for col_name, xpath in ORDER_COLUMNS.items()}`,
rendered in `ORDER_COLUMNS` key order. -/
def orderRow (o : Order) : List String :=
  orderColumns.map (fun p => txtO o p.2)

/-- Whether an order passes the customer-group filter
(`group_name not in ALLOWED_CUSTOMER_GROUPS: continue`). -/
def orderAllowed (o : Order) : Bool :=
  allowedCustomerGroups.contains (txtO o "Customer/Group/Name")

/-- `xml_string_to_dataframe` (`src/src/unas_helper.py` lines 377-397) on
the parsed order list: one row per order whose customer group is allowed;
the columns are always the `ORDER_COLUMNS` keys (both the empty and the
non-empty branch of the source produce them). -/
def xmlOrdersToDf (orders : List Order) : Df :=
  { cols := orderColumns.map (fun p => Val.vStr p.1),
    rows := (orders.filter orderAllowed).map orderRow }

/-!  ## `daily_summary_orders_to_excel` (`src/src/unas_actions.py` 130-153)

The function fetches today's and yesterday's orders, picks as header the
wider of the two dataframes' column lists, ensures the workbook and sheet
exist (and saves), deletes any existing `"Day: <yesterday>"` segment,
prepends yesterday's block and then today's block.  Each step reloads the
file saved by the previous one, so we chain the saved workbooks. -/
def dailySummaryOrdersToExcel (file : Option Workbook)
    (dfToday dfYday : Df) (todayStr ydayStr : String)
    (sheetName : String) (spacer : Nat) : Workbook :=
  let headerCols :=
    if dfYday.cols.length ≤ dfToday.cols.length then dfToday.cols
    else dfYday.cols
  let wb1 := openOrInitWb file sheetName headerCols
  let wb2 := (deleteBatchByLabel (some wb1) sheetName ydayStr headerCols).1
  let wb3 := prependBatchToExcel dfYday (some wb2) ydayStr sheetName spacer
  prependBatchToExcel dfToday (some wb3) todayStr sheetName spacer

/-- The day-marker string carried by a row, if the row is a day-segment
marker row (its first cell a string starting with `"Day: "`). -/
def dayMarkerOfRow (row : Row) : Option String :=
  match firstCell row with
  | .vStr s => if strStartsWith "Day: " s then some s else none
  | _ => none

/-- The day-segment marker strings of a sheet, top to bottom; its length is
the number of labeled day segments. -/
def dayMarkers (ws : Sheet) : List String :=
  ws.filterMap dayMarkerOfRow

/-!  ## `build_monthly_workbook_for_previous_weeks`
(`src/src/unas_actions.py` lines 13-95)

The routine partitions the lookback range into weekly windows; each window
carries the label `f"{start_s}-{end_s}"` (dotted `strftime` of its clipped
bounds, so distinct windows get distinct labels) and the list of month
sheet names it touches (`week_months_covered` / `month_sheet_name`, one or
two, never empty for a valid window).  We take the windows with those two
derived fields as input and embed the per-window loop body verbatim. -/
structure WindowInfo where
  label : String
  monthsHit : List String
  deriving DecidableEq

/-- Association-list lookup (Python `dict.get`). -/
def alistFind {α : Type} (l : List (String × α)) (k : String) : Option α :=
  (l.find? (fun p => p.1 == k)).map Prod.snd

/-- Association-list store (Python `dict[k] = v`): replace if present,
append otherwise. -/
def alistStore {α : Type} (l : List (String × α)) (k : String) (v : α) :
    List (String × α) :=
  if l.any (fun p => p.1 == k) then
    l.map (fun p => if p.1 == k then (k, v) else p)
  else l ++ [(k, v)]

/-- The mutable state of one `build_monthly_workbook_for_previous_weeks`
run: the saved file plus the two caches
(`existing_labels_by_sheet`, `existing_headers_by_sheet`). -/
structure BuildState where
  file : Option Workbook
  labelsCache : List (String × List String)
  headersCache : List (String × List Val)
  deriving DecidableEq

/-- Run-start state (`src/src/unas_actions.py` lines 41-49): both caches
are primed from every sheet of the existing file, or empty when the file
does not exist. -/
def initState (file : Option Workbook) : BuildState :=
  { file := file,
    labelsCache :=
      (file.getD []).map (fun p => (p.1, existingWeekLabelsInSheet p.2)),
    headersCache :=
      (file.getD []).map (fun p => (p.1, getExistingHeader p.2)) }

/-- `sheet_has_label(sheet_name, label)`
(`existing_labels_by_sheet.get(sheet_name, set())` membership). -/
def sheetHasLabel (st : BuildState) (sheetName label : String) : Bool :=
  ((alistFind st.labelsCache sheetName).getD []).contains label

/-- Header resolution for one sheet (`src/src/unas_actions.py` lines
74-77): the cached existing header if it is non-empty and not all `None`,
else `list(ORDER_COLUMNS.keys())`. -/
def effectiveHeader (cached : Option (List Val)) : List Val :=
  match cached with
  | none => orderColumns.map (fun p => Val.vStr p.1)
  | some h =>
    if h.isEmpty || h.all (fun v => v == Val.vNone) then
      orderColumns.map (fun p => Val.vStr p.1)
    else h

/-- One row of `df_week.reindex(columns=header_cols, fill_value="")`: one
value per header column, taken from the row where the dataframe has that
column and `""` otherwise (a non-string header cell matches no dataframe
column of this pipeline). -/
def reindexRow (header : List Val) (dfCols : List Val)
    (row : List String) : List String :=
  header.map (fun h => if dfCols.contains h then row.getD (dfCols.indexOf h) "" else "")

/-- `df_week.reindex(columns=header_cols, fill_value="")`. -/
def reindexDf (header : List Val) (df : Df) : Df :=
  { cols := header, rows := df.rows.map (reindexRow header df.cols) }

/-- Observable events of a build run, for stating what a window did:
`fetched l` is the `get_all_orders` call for the window labeled `l`;
`wrote s l` / `saved s l` are the `append_week_block` and the paired
`wb.save` on sheet `s` (the source saves exactly once per appended
block). -/
inductive Ev where
  | fetched : String → Ev
  | wrote : String → String → Ev
  | saved : String → String → Ev
  deriving DecidableEq

/-- The inner `for sheet in months_hit` body
(`src/src/unas_actions.py` lines 73-92) for one sheet. -/
def processSheet (label : String) (dfWeek : Df) (spacer : Nat)
    (st : BuildState) (sheetName : String) : BuildState × List Ev :=
  let headerCols := effectiveHeader (alistFind st.headersCache sheetName)
  let dfAligned := reindexDf headerCols dfWeek
  let wb := openOrInitWb st.file sheetName headerCols
  let ws := (wbSheet wb sheetName).getD []
  let st1 :=
    if (alistFind st.labelsCache sheetName).isSome then st
    else
      { st with
        labelsCache :=
          alistStore st.labelsCache sheetName (existingWeekLabelsInSheet ws),
        headersCache :=
          alistStore st.headersCache sheetName (getExistingHeader ws) }
  let labels := (alistFind st1.labelsCache sheetName).getD []
  if labels.contains label then
    (st1, [])
  else
    let ws' := appendWeekBlock ws dfAligned label spacer
    ({ st1 with
        file := some (wbSetSheet wb sheetName ws'),
        labelsCache := alistStore st1.labelsCache sheetName (labels ++ [label]) },
      [Ev.wrote sheetName label, Ev.saved sheetName label])

/-- The per-window body of the `for (ws_start, ws_end) in weeks` loop
(`src/src/unas_actions.py` lines 55-92): skip when every touched sheet
already has the label (`if months_hit and all(...)`); otherwise fetch the
window, skip the writes when the filtered dataframe is empty, and
otherwise run the sheet loop. -/
def processWindow (fetch : String → List Order) (spacer : Nat)
    (st : BuildState) (w : WindowInfo) : BuildState × List Ev :=
  if (!w.monthsHit.isEmpty) &&
      w.monthsHit.all (fun s => sheetHasLabel st s w.label) then
    (st, [])
  else
    let dfWeek := xmlOrdersToDf (fetch w.label)
    if dfWeek.rows.isEmpty then
      (st, [Ev.fetched w.label])
    else
      let r := w.monthsHit.foldl
        (fun acc sheetName =>
          let pr := processSheet w.label dfWeek spacer acc.1 sheetName
          (pr.1, acc.2 ++ pr.2))
        (st, ([] : List Ev))
      (r.1, Ev.fetched w.label :: r.2)

/-- A whole `build_monthly_workbook_for_previous_weeks` run over a window
list: fold of `processWindow` from the primed run-start state, collecting
events in order. -/
def runBuild (fetch : String → List Order) (spacer : Nat)
    (file : Option Workbook) (windows : List WindowInfo) :
    BuildState × List Ev :=
  windows.foldl
    (fun acc w =>
      let pr := processWindow fetch spacer acc.1 w
      (pr.1, acc.2 ++ pr.2))
    (initState file, ([] : List Ev))

/-- Whether `label` is recorded on sheet `n` of the saved file (absent
sheet: not recorded). -/
def fileHasLabel (file : Option Workbook) (n l : String) : Bool :=
  match wbSheet (file.getD []) n with
  | some ws => (existingWeekLabelsInSheet ws).contains l
  | none => false

/-!  ## Persistence model (`_atomic_write_xlsx` vs plain `wb.save`)

`src/src/handle_excel.py` lines 174-186 persist the merged daily summary by
writing a `mkstemp` file in the destination's directory and `os.replace`-ing
it over the destination.  The ledger and rotator paths
(`src/src/unas_actions.py` line 91, `src/src/unas_helper.py` lines 313,
319, 325) persist with `wb.save(path)`, which opens the destination path
itself and writes it in place.

We model the filesystem as a map from path to file state; a non-atomic
in-place write is two steps (`beginWrite`, during which a reader or a crash
sees a half-written file, then `endWrite`), while `os.replace` is a single
atomic step, and `mkstemp` atomically creates an empty file. -/
inductive FileState where
  | absent : FileState
  | committed : String → FileState
  | halfWritten : FileState
  deriving DecidableEq

/-- Filesystem operations relevant to the two persistence paths. -/
inductive FsOp where
  | create : String → FsOp
  | beginWrite : String → FsOp
  | endWrite : String → String → FsOp
  | replace : String → String → FsOp
  deriving DecidableEq

/-- A filesystem: path to file state. -/
def FS : Type := String → FileState

/-- Effect of one operation. -/
def applyOp (fs : FS) (op : FsOp) : FS :=
  match op with
  | .create p => fun q => if q = p then .committed "" else fs q
  | .beginWrite p => fun q => if q = p then .halfWritten else fs q
  | .endWrite p c => fun q => if q = p then .committed c else fs q
  | .replace src dst =>
    fun q => if q = dst then fs src else if q = src then .absent else fs q

/-- Effect of an operation sequence. -/
def applyTrace (fs : FS) (tr : List FsOp) : FS :=
  tr.foldl applyOp fs

/-- `_atomic_write_xlsx(df, out_path)` (`src/src/handle_excel.py` lines
174-186): `mkstemp` a fresh `tmp` in the destination's directory,
`df.to_excel(tmp)` (an in-place write of `tmp`), then
`os.replace(tmp, out_path)`.  (The `finally` cleanup is a no-op after the
replace, and never runs at a crash point.) -/
def atomicWriteTrace (tmp dst content : String) : List FsOp :=
  [.create tmp, .beginWrite tmp, .endWrite tmp content, .replace tmp dst]

/-- `wb.save(out_xlsx)` as used by
`build_monthly_workbook_for_previous_weeks`, `prepend_batch_to_excel` and
`delete_batch_by_label`: an in-place write of the destination path. -/
def ledgerSaveTrace (dst content : String) : List FsOp :=
  [.beginWrite dst, .endWrite dst content]

/-!  ## Claim C1 -/

/-- C1 counterexample: the ledger workbook is persisted with a plain
in-place `wb.save(out_xlsx)` (modelled by `ledgerSaveTrace`), so a crash or
reader between the start and end of that write observes a half-written
destination file — not the previous document and not the new one.  (The
temp-then-replace path exists only for the merged daily summary in
`handle_excel.py`.) -/
theorem claim_C1_counterexample :
    applyTrace (fun _ => FileState.committed "old")
        ((ledgerSaveTrace "ledger.xlsx" "new").take 1) "ledger.xlsx" =
      FileState.halfWritten ∧
    ledgerSaveTrace "ledger.xlsx" "new" ≠
      atomicWriteTrace "tmp.xlsx" "ledger.xlsx" "new" := by
  constructor
  · rfl
  · decide

/-- C1 amended: only `_atomic_write_xlsx` (the merged daily-summary
persistence) is write-to-temp-then-atomic-replace: for a fresh temp path,
every crash/read point during it shows the destination either as before or
as the new fully-committed content, and the final state is the new
content.  The ledger/rotator `wb.save` persistences write the destination
in place and do not have this shape. -/
theorem claim_C1_amended_atomic_persist (tmp dst content : String)
    (fs0 : FS) (hne : tmp ≠ dst) :
    (∀ n : Nat,
        applyTrace fs0 ((atomicWriteTrace tmp dst content).take n) dst =
            fs0 dst ∨
        applyTrace fs0 ((atomicWriteTrace tmp dst content).take n) dst =
            FileState.committed content) ∧
    applyTrace fs0 (atomicWriteTrace tmp dst content) dst =
      FileState.committed content := by
  have hd : ¬ (dst = tmp) := fun hc => hne hc.symm
  have hfull : applyTrace fs0 (atomicWriteTrace tmp dst content) dst =
      FileState.committed content := by
    simp [applyTrace, atomicWriteTrace, applyOp, hd]
  refine ⟨?_, hfull⟩
  intro n
  match n with
  | 0 => left; rfl
  | 1 => left; simp [applyTrace, atomicWriteTrace, applyOp, hd]
  | 2 => left; simp [applyTrace, atomicWriteTrace, applyOp, hd]
  | 3 => left; simp [applyTrace, atomicWriteTrace, applyOp, hd]
  | (m + 4) =>
    right
    have htake : (atomicWriteTrace tmp dst content).take (m + 4) =
        atomicWriteTrace tmp dst content := by
      apply List.take_of_length_le
      simp [atomicWriteTrace]
    rw [htake]
    exact hfull

/-- Witness for C1's amended theorem at concrete paths and contents. -/
theorem claim_C1_amended_atomic_persist_witness :
    ("t.xlsx" : String) ≠ "out.xlsx" ∧
    applyTrace (fun _ => FileState.committed "old")
        (atomicWriteTrace "t.xlsx" "out.xlsx" "new") "out.xlsx" =
      FileState.committed "new" :=
  ⟨by decide,
    (claim_C1_amended_atomic_persist "t.xlsx" "out.xlsx" "new"
      (fun _ => FileState.committed "old") (by decide)).2⟩

/-!  ## Claim C10 -/

/-- C10: every row of the dataframe built from fetched order XML comes from
an order whose customer group is one of the three allowed values, and the
rows are exactly the allowed orders in order (so orders in any other group
contribute neither rows nor summary counts, which are functions of the
rows). -/
theorem claim_C10_customer_group_filter (orders : List Order) :
    (∀ r ∈ (xmlOrdersToDf orders).rows,
        ∃ o ∈ orders, orderAllowed o = true ∧ r = orderRow o) ∧
    (xmlOrdersToDf orders).rows.length =
      (orders.filter orderAllowed).length ∧
    (∀ o ∈ orders, orderAllowed o = true →
        orderRow o ∈ (xmlOrdersToDf orders).rows) := by
  refine ⟨?_, ?_, ?_⟩
  · intro r hr
    simp only [xmlOrdersToDf] at hr
    obtain ⟨o, ho, rfl⟩ := List.mem_map.mp hr
    have hof := List.mem_filter.mp ho
    exact ⟨o, hof.1, hof.2, rfl⟩
  · simp [xmlOrdersToDf]
  · intro o ho hallow
    simp only [xmlOrdersToDf]
    exact List.mem_map_of_mem _ (List.mem_filter.mpr ⟨ho, hallow⟩)

/-!  ## Claim C6 -/

/-- Modelled from the spec: the layered counting rule the claim states for
a segment's summary row — if a field case-insensitively matching an entry
of the ordered priority list is present, the count is the number of
distinct stringified values of the most canonical such field; otherwise
the number of records.  (The spec's middle heuristic over `"id"`-суffixed
fields is not part of the claim and no column of the inputs below has an
id-like suffix.) -/
def specEstimateCount (priorityFields : List String) (df : Df) : Nat :=
  match priorityFields.findSome? (fun p =>
      df.cols.findSome? (fun c =>
        match c with
        | .vStr s =>
          if String.mk (s.data.map Char.toLower) ==
              String.mk (p.data.map Char.toLower) then some s else none
        | _ => none)) with
  | some colName => dfNunique df colName
  | none => df.rows.length

/-- A dataframe whose only column case-insensitively matches `Order_Key`
but not case-sensitively, with 1 distinct value among 2 rows. -/
def exDfUpper : Df :=
  { cols := [Val.vStr "ORDER_KEY"], rows := [["a"], ["a"]] }

/-- C6 counterexample: the claim's case-insensitive layered rule gives 1
for `exDfUpper`, but the day-segment summary count of
`prepend_batch_to_excel` tests the priority fields with exact
case-sensitive equality, misses `ORDER_KEY`, and falls back to the row
count 2. -/
theorem claim_C6_counterexample :
    specEstimateCount ["Order_Key", "Order_Id"] exDfUpper = 1 ∧
    ordersCountPrepend exDfUpper = 2 ∧
    exDfUpper.rows.length = 2 := by
  refine ⟨by decide, by decide, by decide⟩

/-- C6 amended: the summary counts follow the layered rule with **exact
(case-sensitive)** field-name matching: day segments use the ordered
priority list `Order_Key`, `Order_Id` and week segments the list
`Order_Id`; when a priority field is present the count is the number of
distinct stringified values of the most canonical present one (so `k`
distinct ids among `n > k` rows yield `k`), and only when none is present
does the count fall back to the number of records. -/
theorem claim_C6_amended_layered_count (df : Df) :
    (Val.vStr "Order_Key" ∈ df.cols →
        ordersCountPrepend df = dfNunique df "Order_Key") ∧
    (Val.vStr "Order_Key" ∉ df.cols → Val.vStr "Order_Id" ∈ df.cols →
        ordersCountPrepend df = dfNunique df "Order_Id") ∧
    (Val.vStr "Order_Key" ∉ df.cols → Val.vStr "Order_Id" ∉ df.cols →
        ordersCountPrepend df = df.rows.length) ∧
    (Val.vStr "Order_Id" ∈ df.cols →
        ordersCountAppend df = dfNunique df "Order_Id") ∧
    (Val.vStr "Order_Id" ∉ df.cols →
        ordersCountAppend df = df.rows.length) := by
  refine ⟨?_, ?_, ?_, ?_, ?_⟩ <;> intro h1 <;>
    try intro h2
  all_goals simp [ordersCountPrepend, ordersCountAppend, *]

/-- A dataframe with a canonical id column holding 2 distinct values among
3 rows. -/
def exDfKeyDup : Df :=
  { cols := [Val.vStr "Order_Key"], rows := [["a"], ["a"], ["b"]] }

/-- Witness for C6's amended theorem: `k = 2` distinct keys among `n = 3`
rows yield count 2, not 3. -/
theorem claim_C6_amended_layered_count_witness :
    Val.vStr "Order_Key" ∈ exDfKeyDup.cols ∧
    ordersCountPrepend exDfKeyDup = dfNunique exDfKeyDup "Order_Key" ∧
    dfNunique exDfKeyDup "Order_Key" = 2 ∧
    exDfKeyDup.rows.length = 3 :=
  ⟨by decide, (claim_C6_amended_layered_count exDfKeyDup).1 (by decide),
    by decide, by decide⟩

/-!  ## Claim C5 -/

/-- Byte-wise lexicographic order on strings (Python's `sorted` on the
ASCII field names of the claim's scenario). -/
def charListLe : List Char → List Char → Bool
  | [], _ => true
  | _ :: _, [] => false
  | a :: as, b :: bs =>
    if a.val < b.val then true
    else if b.val < a.val then false
    else charListLe as bs

/-- Insert into a sorted list. -/
def insertSorted (x : String) : List String → List String
  | [] => [x]
  | y :: ys => if charListLe x.data y.data then x :: y :: ys
               else y :: insertSorted x ys

/-- Sort a list of strings lexicographically. -/
def sortStrings (l : List String) : List String :=
  l.foldr insertSorted []

/-- Modelled from the spec: `UnionHeader(existingHeader, recordSets)` — a
non-empty existing header is returned unchanged; otherwise the sorted union
of all field names across every record of every input set, with a single
placeholder column name when that union is empty. -/
def specUnionHeader (existingHeader : List String)
    (recordSets : List (List Order)) : List String :=
  if existingHeader ≠ [] then existingHeader
  else
    let u := ((recordSets.flatten.map (fun o => o.map Prod.fst)).flatten).dedup
    if u = [] then ["info"]
    else sortStrings u

/-- A record with field names `A`, `B`. -/
def recAB : Order := [("A", "1"), ("B", "2")]

/-- A record with field names `A`, `C`. -/
def recAC : Order := [("A", "1"), ("C", "3")]

/-- C5 counterexample: for record sets with field sets `{A,B}` and `{A,C}`
and no existing header, the claim's `UnionHeader` yields the sorted union
`[A, B, C]`, but the code's first-creation header (the fallback of
`build_monthly_workbook_for_previous_weeks` lines 74-77, which never looks
at the records) is the fixed `ORDER_COLUMNS` key list. -/
theorem claim_C5_counterexample :
    specUnionHeader [] [[recAB], [recAC]] = ["A", "B", "C"] ∧
    effectiveHeader none ≠ ["A", "B", "C"].map Val.vStr ∧
    effectiveHeader none = orderColumns.map (fun p => Val.vStr p.1) := by
  refine ⟨by decide, by decide, by decide⟩

/-- C5 amended: a non-empty existing header with at least one non-`None`
cell is returned unchanged (schema stability); an absent, empty or
all-`None` header falls back to the fixed `ORDER_COLUMNS` key list in
declaration order, independent of the input record sets — no sorted union
and no placeholder column are ever computed. -/
theorem claim_C5_amended_header (h : List Val) :
    (h ≠ [] → (h.all (fun v => v == Val.vNone)) = false →
        effectiveHeader (some h) = h) ∧
    effectiveHeader none = orderColumns.map (fun p => Val.vStr p.1) ∧
    ((h.isEmpty || h.all (fun v => v == Val.vNone)) = true →
        effectiveHeader (some h) = orderColumns.map (fun p => Val.vStr p.1)) := by
  refine ⟨?_, rfl, ?_⟩
  · intro h1 h2
    have hne : h.isEmpty = false := by
      cases h with
      | nil => exact absurd rfl h1
      | cons a l => rfl
    simp [effectiveHeader, hne, h2]
  · intro h1
    simp [effectiveHeader, h1]

/-- Witness for C5's amended theorem: a concrete non-empty header is kept
verbatim. -/
theorem claim_C5_amended_header_witness :
    ([Val.vStr "X"] : List Val) ≠ [] ∧
    effectiveHeader (some [Val.vStr "X"]) = [Val.vStr "X"] :=
  ⟨by decide,
    (claim_C5_amended_header [Val.vStr "X"]).1 (by decide) (by decide)⟩

/-!  ## Claim C7 -/

lemma getD_drop (l : Sheet) :
    ∀ (n i : Nat), (l.drop n).getD i [] = l.getD (n + i) [] := by
  induction l with
  | nil => intro n i; simp
  | cons r rs ih =>
    intro n i
    cases n with
    | zero => simp
    | succ n =>
      have := ih n i
      simpa [Nat.succ_add] using this

lemma findFirstIdx_none_iff (p : Row → Bool) (l : Sheet) :
    findFirstIdx p l = none ↔ ∀ r ∈ l, p r = false := by
  induction l with
  | nil => simp [findFirstIdx]
  | cons r rs ih =>
    by_cases h : p r
    · simp [findFirstIdx, h]
    · have hstep : findFirstIdx p (r :: rs) =
          (findFirstIdx p rs).map (· + 1) := by
        rw [show findFirstIdx p (r :: rs) =
            if p r then some 0 else (findFirstIdx p rs).map (· + 1) from rfl,
          if_neg h]
      rw [hstep, Option.map_eq_none', ih]
      constructor
      · intro hall q hq
        rcases List.mem_cons.mp hq with hq | hq
        · subst hq
          exact Bool.eq_false_iff.mpr h
        · exact hall q hq
      · intro hall q hq
        exact hall q (List.mem_cons_of_mem r hq)

lemma findFirstIdx_some (p : Row → Bool) :
    ∀ (l : Sheet) (i : Nat), findFirstIdx p l = some i →
      i < l.length ∧ p (l.getD i []) = true ∧
        ∀ j, j < i → p (l.getD j []) = false := by
  intro l
  induction l with
  | nil => intro i h; exact absurd h (by simp [findFirstIdx])
  | cons r rs ih =>
    intro i h
    rw [show findFirstIdx p (r :: rs) =
        if p r then some 0 else (findFirstIdx p rs).map (· + 1) from rfl] at h
    by_cases hp : p r
    · rw [if_pos hp] at h
      obtain rfl : (0 : Nat) = i := Option.some.inj h
      exact ⟨by simp, by simpa using hp,
        fun j hj => absurd hj (Nat.not_lt_zero j)⟩
    · rw [if_neg hp] at h
      obtain ⟨a, ha, rfl⟩ := Option.map_eq_some'.mp h
      obtain ⟨h1, h2, h3⟩ := ih a ha
      have hpr : p r = false := Bool.eq_false_iff.mpr hp
      refine ⟨by simpa using Nat.succ_lt_succ h1, by simpa using h2, ?_⟩
      intro j hj
      cases j with
      | zero => simpa using hpr
      | succ j' =>
        have := h3 j' (Nat.lt_of_succ_lt_succ hj)
        simpa using this

lemma getD_mem_of_lt (l : Sheet) (n : Nat) (h : n < l.length) :
    l.getD n [] ∈ l := by
  rw [List.getD_eq_getElem?_getD, List.getElem?_eq_getElem h]
  simpa using List.getElem_mem h

/-- C7: `delete_batch_by_label` removes exactly the contiguous row range of
the located day segment and reports `true`; when no marker row equals
`"Day: <label>"` it removes nothing and reports `false`.  The located range
starts at the (first) matching marker row and ends at the row immediately
before the next `"Day: "` marker, or at the sheet's last row when no later
marker exists.  (Rows are 1-indexed; `getD (r-1)` reads row `r`.) -/
theorem claim_C7_delete_bounds (file : Option Workbook)
    (sheetName label : String) (headerCols : List Val) :
    (findBatchBounds
        ((wbSheet (openOrInitWb file sheetName headerCols) sheetName).getD [])
        label = none →
      deleteBatchByLabel file sheetName label headerCols =
          (openOrInitWb file sheetName headerCols, false) ∧
      ∀ r ∈ (wbSheet (openOrInitWb file sheetName headerCols)
          sheetName).getD [], isDayTarget label r = false) ∧
    (∀ s e : Nat, findBatchBounds
        ((wbSheet (openOrInitWb file sheetName headerCols) sheetName).getD [])
        label = some (s, e) →
      (deleteBatchByLabel file sheetName label headerCols =
          (wbSetSheet (openOrInitWb file sheetName headerCols) sheetName
            (((wbSheet (openOrInitWb file sheetName headerCols)
                sheetName).getD []).take (s - 1) ++
             ((wbSheet (openOrInitWb file sheetName headerCols)
                sheetName).getD []).drop e),
           true)) ∧
      1 ≤ s ∧ s ≤ e ∧
      e ≤ ((wbSheet (openOrInitWb file sheetName headerCols)
            sheetName).getD []).length ∧
      isDayTarget label (((wbSheet (openOrInitWb file sheetName
          headerCols) sheetName).getD []).getD (s - 1) []) = true ∧
      (∀ j, s ≤ j → j < e →
        isDayMarkerRow (((wbSheet (openOrInitWb file sheetName
            headerCols) sheetName).getD []).getD j []) = false) ∧
      (e = ((wbSheet (openOrInitWb file sheetName headerCols)
            sheetName).getD []).length ∨
        isDayMarkerRow (((wbSheet (openOrInitWb file sheetName
            headerCols) sheetName).getD []).getD e []) = true)) := by
  set wb := openOrInitWb file sheetName headerCols with hwb
  set ws : Sheet := (wbSheet wb sheetName).getD [] with hws
  constructor
  · intro hnone
    have hfbn : findFirstIdx (isDayTarget label) ws = none := by
      rcases hfb : findFirstIdx (isDayTarget label) ws with _ | i
      · rfl
      · exfalso
        unfold findBatchBounds at hnone
        simp only [hfb] at hnone
        rcases hnext : findFirstIdx isDayMarkerRow (ws.drop (i + 1))
            with _ | j <;> simp only [hnext] at hnone <;>
          exact Option.noConfusion hnone
    constructor
    · simp only [deleteBatchByLabel]
      rw [← hwb, ← hws, hnone]
    · intro r hr
      exact (findFirstIdx_none_iff _ _).mp hfbn r hr
  · intro s e hsome
    rcases hfb : findFirstIdx (isDayTarget label) ws with _ | i
    · exfalso
      unfold findBatchBounds at hsome
      simp only [hfb] at hsome
      exact Option.noConfusion hsome
    · obtain ⟨hi1, hi2, _⟩ := findFirstIdx_some _ ws i hfb
      unfold findBatchBounds at hsome
      simp only [hfb] at hsome
      rcases hnext : findFirstIdx isDayMarkerRow (ws.drop (i + 1)) with _ | j
      · -- no later marker: the segment runs to the last row
        simp only [hnext] at hsome
        have hpair := Option.some.inj hsome
        have hs : i + 1 = s := congrArg Prod.fst hpair
        have he : ws.length = e := congrArg Prod.snd hpair
        subst hs
        subst he
        have hall := (findFirstIdx_none_iff isDayMarkerRow _).mp hnext
        have hfbv : findBatchBounds ws label = some (i + 1, ws.length) := by
          unfold findBatchBounds
          simp only [hfb, hnext]
        refine ⟨?_, by omega, by omega, le_refl _, by simpa using hi2,
          ?_, Or.inl rfl⟩
        · simp only [deleteBatchByLabel]
          rw [← hwb, ← hws, hfbv]
          have harith : i + 1 - 1 + (ws.length - (i + 1) + 1) = ws.length := by
            omega
          simp only [deleteRows, harith]
        · intro j hj1 hj2
          have hjlt : j - (i + 1) < (ws.drop (i + 1)).length := by
            simp only [List.length_drop]
            omega
          have heq := getD_drop ws (i + 1) (j - (i + 1))
          have harith : i + 1 + (j - (i + 1)) = j := by omega
          rw [harith] at heq
          rw [← heq]
          exact hall _ (getD_mem_of_lt _ _ hjlt)
      · -- a later marker exists: the segment stops right before it
        simp only [hnext] at hsome
        have hpair := Option.some.inj hsome
        have hs : i + 1 = s := congrArg Prod.fst hpair
        have he : i + 1 + j = e := congrArg Prod.snd hpair
        subst hs
        subst he
        obtain ⟨hj1, hj2, hj3⟩ := findFirstIdx_some _ _ j hnext
        have hjlen : i + 1 + j < ws.length := by
          simp only [List.length_drop] at hj1
          omega
        have hfbv : findBatchBounds ws label = some (i + 1, i + 1 + j) := by
          unfold findBatchBounds
          simp only [hfb, hnext]
        refine ⟨?_, by omega, by omega, by omega, by simpa using hi2, ?_, ?_⟩
        · simp only [deleteBatchByLabel]
          rw [← hwb, ← hws, hfbv]
          have harith : i + 1 - 1 + (i + 1 + j - (i + 1) + 1) = i + 1 + j := by
            omega
          simp only [deleteRows, harith]
        · intro k hk1 hk2
          have := hj3 (k - (i + 1)) (by omega)
          have heq := getD_drop ws (i + 1) (k - (i + 1))
          have harith : i + 1 + (k - (i + 1)) = k := by omega
          rw [harith] at heq
          rw [← heq]
          exact this
        · right
          have heq := getD_drop ws (i + 1) j
          rw [← heq]
          exact hj2

/-- A concrete workbook with two day segments for C7's witness. -/
def exWbDel : Workbook :=
  [("S", [[Val.vStr "H"],
          [Val.vStr "Day: 2025.10.09"],
          [Val.vStr "x"],
          [Val.vStr "Day: 2025.10.10"],
          [Val.vStr "y"]])]

/-- Witness for C7 at a concrete workbook: the `2025.10.09` segment spans
rows 2-3 (up to just before the next marker in row 4) and deleting it
returns `true` with exactly those rows removed. -/
theorem claim_C7_delete_bounds_witness :
    findBatchBounds
        ((wbSheet (openOrInitWb (some exWbDel) "S" []) "S").getD [])
        "2025.10.09" = some (2, 3) ∧
    deleteBatchByLabel (some exWbDel) "S" "2025.10.09" [] =
      (wbSetSheet (openOrInitWb (some exWbDel) "S" []) "S"
        ((((wbSheet (openOrInitWb (some exWbDel) "S" []) "S").getD
            []).take (2 - 1)) ++
         (((wbSheet (openOrInitWb (some exWbDel) "S" []) "S").getD
            []).drop 3)),
       true) :=
  ⟨by decide,
    ((claim_C7_delete_bounds (some exWbDel) "S" "2025.10.09" []).2 2 3
      (by decide)).1⟩

/-!  ## Claim C2: workbook and marker lemmas -/

lemma wbSheet_isSome_iff_hasSheet (wb : Workbook) (n : String) :
    (wbSheet wb n).isSome ↔ wbHasSheet wb n = true := by
  induction wb with
  | nil => simp [wbSheet, wbHasSheet]
  | cons p wb ih =>
    by_cases h : p.1 == n
    · simp [wbSheet, wbHasSheet, List.find?, h]
    · simp only [wbSheet, wbHasSheet, List.find?, h, List.any_cons,
        Bool.false_or] at ih ⊢
      exact ih

lemma openOrInitWb_present (wb : Workbook) (n : String) (h : List Val)
    (hp : wbHasSheet wb n = true) : openOrInitWb (some wb) n h = wb := by
  simp [openOrInitWb, hp]

lemma wbSheet_setSheet_self (wb : Workbook) (n : String) (ws' : Sheet)
    (hp : wbHasSheet wb n = true) :
    wbSheet (wbSetSheet wb n ws') n = some ws' := by
  induction wb with
  | nil => simp [wbHasSheet] at hp
  | cons p wb ih =>
    by_cases h : p.1 == n
    · simp [wbSheet, wbSetSheet, List.find?, h]
    · have hp' : wbHasSheet wb n = true := by
        simpa [wbHasSheet, h] using hp
      have := ih hp'
      simpa [wbSheet, wbSetSheet, List.find?, h] using this

lemma wbHasSheet_setSheet (wb : Workbook) (n m : String) (ws' : Sheet) :
    wbHasSheet (wbSetSheet wb n ws') m = wbHasSheet wb m := by
  induction wb with
  | nil => rfl
  | cons p wb ih =>
    simp only [wbSetSheet, List.map_cons, wbHasSheet, List.any_cons]
    have htail : (wb.map (fun q => if q.1 == n then (n, ws') else q)).any
        (fun q => q.1 == m) = wb.any (fun q => q.1 == m) := by
      simpa [wbSetSheet, wbHasSheet] using ih
    rw [htail]
    by_cases h : p.1 == n
    · have h' : p.1 = n := by simpa using h
      rw [if_pos h, h']
    · rw [if_neg h]

lemma dayMarkers_append (a b : Sheet) :
    dayMarkers (a ++ b) = dayMarkers a ++ dayMarkers b := by
  simp [dayMarkers]

lemma dayMarkers_replicate_nil (k : Nat) :
    dayMarkers (List.replicate k ([] : Row)) = [] := by
  induction k with
  | zero => rfl
  | succ k ih => simpa [dayMarkers, List.replicate_succ, dayMarkerOfRow,
      firstCell] using ih

lemma isPrefixOf_append_self {α : Type} [BEq α] [LawfulBEq α]
    (l m : List α) : l.isPrefixOf (l ++ m) = true := by
  induction l with
  | nil => exact List.isPrefixOf_nil_left
  | cons a as ih => simp [List.isPrefixOf_cons₂, ih]

lemma strStartsWith_append_self (p x : String) :
    strStartsWith p (p ++ x) = true := by
  unfold strStartsWith
  rw [String.data_append]
  exact isPrefixOf_append_self _ _

lemma dayMarkerOfRow_mapStr (r : List String)
    (hyg : strStartsWith "Day: " (r.getD 0 "") = false) :
    dayMarkerOfRow (r.map Val.vStr) = none := by
  cases r with
  | nil => rfl
  | cons a rest =>
    simp only [List.getD_cons_zero] at hyg
    simp [dayMarkerOfRow, firstCell, hyg]

lemma dayMarkers_dataRows (rows : List (List String))
    (hyg : ∀ r ∈ rows, strStartsWith "Day: " (r.getD 0 "") = false) :
    dayMarkers (rows.map (List.map Val.vStr)) = [] := by
  induction rows with
  | nil => rfl
  | cons r rest ih =>
    have h1 := dayMarkerOfRow_mapStr r (hyg r (List.mem_cons_self r rest))
    have h2 := ih (fun q hq => hyg q (List.mem_cons_of_mem r hq))
    simpa [dayMarkers, h1] using h2

/-- The one-day block contributes exactly one day marker (its own), given
that no dataframe value in the first column starts with the reserved
marker text. -/
lemma dayMarkers_prependDayBlock (df : Df) (label : String) (spacer : Nat)
    (hyg : ∀ r ∈ df.rows, strStartsWith "Day: " (r.getD 0 "") = false) :
    dayMarkers (prependDayBlock df label spacer) = ["Day: " ++ label] := by
  unfold prependDayBlock
  rw [show ([Val.vStr ("Day: " ++ label)]
      :: df.rows.map (fun r => r.map Val.vStr)
      ++ [[Val.vStr "Orders on day:", Val.vInt (ordersCountPrepend df)]]
      ++ List.replicate spacer [])
    = [[Val.vStr ("Day: " ++ label)]]
      ++ df.rows.map (fun r => r.map Val.vStr)
      ++ [[Val.vStr "Orders on day:", Val.vInt (ordersCountPrepend df)]]
      ++ List.replicate spacer [] from rfl]
  rw [dayMarkers_append, dayMarkers_append, dayMarkers_append]
  rw [dayMarkers_dataRows df.rows hyg, dayMarkers_replicate_nil]
  have hm : dayMarkers [[Val.vStr ("Day: " ++ label)]] =
      ["Day: " ++ label] := by
    simp [dayMarkers, dayMarkerOfRow, firstCell, strStartsWith_append_self]
  have hsum : dayMarkers
      [[Val.vStr "Orders on day:", Val.vInt (ordersCountPrepend df)]] = [] := by
    simp [dayMarkers, dayMarkerOfRow, firstCell]
    decide
  rw [hm, hsum]
  simp

/-- `prepend_batch_to_excel` on a file whose sheet already exists: the
sheet becomes header row, then the day block, then the previous rows 2… -/
lemma prependBatchToExcel_present (df : Df) (wb : Workbook)
    (l sn : String) (sp : Nat) (hp : wbHasSheet wb sn = true) :
    prependBatchToExcel df (some wb) l sn sp =
      wbSetSheet wb sn (((wbSheet wb sn).getD []).take 1 ++
        prependDayBlock df l sp ++ ((wbSheet wb sn).getD []).drop 1) := by
  unfold prependBatchToExcel
  rw [openOrInitWb_present wb sn df.cols hp]

lemma findBatchBounds_start (ws : Sheet) (label : String) (s e : Nat)
    (h : findBatchBounds ws label = some (s, e)) :
    1 ≤ s ∧ s ≤ ws.length ∧ isDayTarget label (ws.getD (s - 1) []) = true := by
  unfold findBatchBounds at h
  rcases hfb : findFirstIdx (isDayTarget label) ws with _ | i <;>
    simp only [hfb] at h
  · exact Option.noConfusion h
  · obtain ⟨h1, h2, _⟩ := findFirstIdx_some _ ws i hfb
    rcases hnext : findFirstIdx isDayMarkerRow (ws.drop (i + 1)) with _ | j <;>
      simp only [hnext] at h
    · have hpair := Option.some.inj h
      have hs : i + 1 = s := congrArg Prod.fst hpair
      subst hs
      exact ⟨by omega, by omega, by simpa using h2⟩
    · have hpair := Option.some.inj h
      have hs : i + 1 = s := congrArg Prod.fst hpair
      subst hs
      exact ⟨by omega, by omega, by simpa using h2⟩

lemma dayMarkerOfRow_of_target (label : String) (r : Row)
    (h : isDayTarget label r = true) : (dayMarkerOfRow r).isSome := by
  unfold isDayTarget at h
  unfold dayMarkerOfRow
  cases hfc : firstCell r with
  | vNone => rw [hfc] at h; exact Bool.noConfusion h
  | vInt n => rw [hfc] at h; exact Bool.noConfusion h
  | vStr s =>
    rw [hfc] at h
    have hs : s = "Day: " ++ label := by simpa using h
    subst hs
    simp [strStartsWith_append_self]

lemma getD_zero_headD (l : Sheet) (h : l ≠ []) :
    l.getD 0 [] = l.headD [] := by
  cases l with
  | nil => exact absurd rfl h
  | cons a t => rfl

/-- The delete step of the daily rotator keeps the header row: the result
sheet still starts with the original first row (the located segment, if
any, starts strictly below the header because the header is not a marker
row). -/
lemma deleteBatchByLabel_keeps_head (wb0 : Workbook) (sn y : String)
    (hdr : List Val) (hp : wbHasSheet wb0 sn = true)
    (hne : (wbSheet wb0 sn).getD [] ≠ [])
    (hhead : dayMarkerOfRow (((wbSheet wb0 sn).getD []).headD []) = none) :
    ∃ t2, wbSheet ((deleteBatchByLabel (some wb0) sn y hdr).1) sn =
        some ((((wbSheet wb0 sn).getD []).headD []) :: t2) ∧
      wbHasSheet ((deleteBatchByLabel (some wb0) sn y hdr).1) sn = true := by
  have hopen : openOrInitWb (some wb0) sn hdr = wb0 :=
    openOrInitWb_present wb0 sn hdr hp
  have hsome : wbSheet wb0 sn = some ((wbSheet wb0 sn).getD []) := by
    rcases hq : wbSheet wb0 sn with _ | x
    · have h1 := (wbSheet_isSome_iff_hasSheet wb0 sn).mpr hp
      rw [hq] at h1
      simp at h1
    · simp [hq]
  obtain ⟨h0, t0, hcons⟩ := List.exists_cons_of_ne_nil hne
  have hh0 : ((wbSheet wb0 sn).getD []).headD [] = h0 := by rw [hcons]; rfl
  rcases hb : findBatchBounds ((wbSheet wb0 sn).getD []) y with _ | ⟨s, e⟩
  · -- nothing to delete: the workbook is returned as saved, unchanged
    refine ⟨t0, ?_, ?_⟩
    · simp only [deleteBatchByLabel, hopen, hb]
      rw [hh0, ← hcons]
      exact hsome
    · simp only [deleteBatchByLabel, hopen, hb]
      exact hp
  · obtain ⟨hs1, hs2, hs3⟩ := findBatchBounds_start _ _ _ _ hb
    have hsge2 : 2 ≤ s := by
      by_contra hlt
      have hseq : s = 1 := by omega
      subst hseq
      rw [show (1 : Nat) - 1 = 0 from rfl] at hs3
      have hsome2 := dayMarkerOfRow_of_target y _ hs3
      rw [getD_zero_headD _ hne] at hsome2
      rw [hhead] at hsome2
      simp at hsome2
    have hdelrows : deleteRows ((wbSheet wb0 sn).getD []) s (e - s + 1) =
        h0 :: (t0.take (s - 2) ++
          (h0 :: t0).drop (s - 1 + (e - s + 1))) := by
      unfold deleteRows
      rw [hcons]
      rw [show s - 1 = (s - 2) + 1 from by omega]
      simp
    refine ⟨t0.take (s - 2) ++
        (h0 :: t0).drop (s - 1 + (e - s + 1)), ?_, ?_⟩
    · simp only [deleteBatchByLabel, hopen, hb]
      rw [hdelrows, hh0]
      exact wbSheet_setSheet_self wb0 sn _ hp
    · simp only [deleteBatchByLabel, hopen, hb]
      rw [wbHasSheet_setSheet]
      exact hp

/-- The saved state of `daily_summary_orders_to_excel` right after the
delete step (before the two prepends). -/
def dailyAfterDelete (file : Option Workbook) (dfToday dfYday : Df)
    (ydayStr sheetName : String) : Workbook :=
  let headerCols :=
    if dfYday.cols.length ≤ dfToday.cols.length then dfToday.cols
    else dfYday.cols
  (deleteBatchByLabel (some (openOrInitWb file sheetName headerCols))
    sheetName ydayStr headerCols).1

lemma dailySummary_decompose (file : Option Workbook) (dfT dfY : Df)
    (t y sn : String) (sp : Nat) :
    dailySummaryOrdersToExcel file dfT dfY t y sn sp =
      prependBatchToExcel dfT
        (some (prependBatchToExcel dfY
          (some (dailyAfterDelete file dfT dfY y sn)) y sn sp)) t sn sp := rfl

/-- C2 amended: after a `daily_summary_orders_to_excel` run on a file whose
sheet exists with a non-marker header row, today's segment is physically
topmost (marker in row 2, directly below the header) with yesterday's
segment directly below it — but the day segments that survive the
yesterday-deletion are retained below them, not discarded, so the sheet's
marker list is exactly today's and yesterday's markers followed by all
markers of the post-delete sheet (which may make more than two in total). -/
theorem claim_C2_amended_rotation (wb0 : Workbook) (dfToday dfYday : Df)
    (todayStr ydayStr sheetName : String) (spacer : Nat)
    (hp : wbHasSheet wb0 sheetName = true)
    (hne : (wbSheet wb0 sheetName).getD [] ≠ [])
    (hhead : dayMarkerOfRow (((wbSheet wb0 sheetName).getD []).headD []) =
      none)
    (hygT : ∀ r ∈ dfToday.rows, strStartsWith "Day: " (r.getD 0 "") = false)
    (hygY : ∀ r ∈ dfYday.rows, strStartsWith "Day: " (r.getD 0 "") = false) :
    ∃ wsF ws2,
      wbSheet (dailySummaryOrdersToExcel (some wb0) dfToday dfYday todayStr
          ydayStr sheetName spacer) sheetName = some wsF ∧
      wbSheet (dailyAfterDelete (some wb0) dfToday dfYday ydayStr sheetName)
          sheetName = some ws2 ∧
      dayMarkers wsF =
        ("Day: " ++ todayStr) :: ("Day: " ++ ydayStr) :: dayMarkers ws2 ∧
      cellVal wsF 2 1 = Val.vStr ("Day: " ++ todayStr) := by
  obtain ⟨t2, hws2, hp2⟩ := deleteBatchByLabel_keeps_head wb0 sheetName
    ydayStr (if dfYday.cols.length ≤ dfToday.cols.length then dfToday.cols
      else dfYday.cols) hp hne hhead
  set h0 : Row := ((wbSheet wb0 sheetName).getD []).headD [] with hh0
  have hdad : dailyAfterDelete (some wb0) dfToday dfYday ydayStr sheetName =
      (deleteBatchByLabel (some wb0) sheetName ydayStr
        (if dfYday.cols.length ≤ dfToday.cols.length then dfToday.cols
          else dfYday.cols)).1 := by
    unfold dailyAfterDelete
    simp only [openOrInitWb_present wb0 sheetName _ hp]
  -- the two prepends on the post-delete workbook
  set wb2 : Workbook := (deleteBatchByLabel (some wb0) sheetName ydayStr
    (if dfYday.cols.length ≤ dfToday.cols.length then dfToday.cols
      else dfYday.cols)).1 with hwb2
  have hprep1 := prependBatchToExcel_present dfYday wb2 ydayStr sheetName
    spacer hp2
  rw [hws2] at hprep1
  simp only [Option.getD_some] at hprep1
  have hws3 : ((h0 :: t2).take 1 ++ prependDayBlock dfYday ydayStr spacer ++
      (h0 :: t2).drop 1) =
      h0 :: (prependDayBlock dfYday ydayStr spacer ++ t2) := by
    simp
  rw [hws3] at hprep1
  have hp3 : wbHasSheet (prependBatchToExcel dfYday (some wb2) ydayStr
      sheetName spacer) sheetName = true := by
    rw [hprep1, wbHasSheet_setSheet]
    exact hp2
  have hws3' : wbSheet (prependBatchToExcel dfYday (some wb2) ydayStr
      sheetName spacer) sheetName =
      some (h0 :: (prependDayBlock dfYday ydayStr spacer ++ t2)) := by
    rw [hprep1]
    exact wbSheet_setSheet_self wb2 sheetName _ hp2
  have hprep2 := prependBatchToExcel_present dfToday
    (prependBatchToExcel dfYday (some wb2) ydayStr sheetName spacer)
    todayStr sheetName spacer hp3
  rw [hws3'] at hprep2
  simp only [Option.getD_some] at hprep2
  have hws4 : ((h0 :: (prependDayBlock dfYday ydayStr spacer ++ t2)).take 1 ++
      prependDayBlock dfToday todayStr spacer ++
      (h0 :: (prependDayBlock dfYday ydayStr spacer ++ t2)).drop 1) =
      h0 :: (prependDayBlock dfToday todayStr spacer ++
        (prependDayBlock dfYday ydayStr spacer ++ t2)) := by
    simp
  rw [hws4] at hprep2
  refine ⟨h0 :: (prependDayBlock dfToday todayStr spacer ++
      (prependDayBlock dfYday ydayStr spacer ++ t2)), h0 :: t2, ?_, ?_, ?_, ?_⟩
  · rw [dailySummary_decompose, hdad, hprep2]
    exact wbSheet_setSheet_self _ sheetName _ hp3
  · rw [hdad]
    exact hws2
  · have hmT := dayMarkers_prependDayBlock dfToday todayStr spacer hygT
    have hmY := dayMarkers_prependDayBlock dfYday ydayStr spacer hygY
    have hdm0 : dayMarkers [h0] = [] := by
      simp [dayMarkers, hhead, ← hh0]
    rw [show (h0 :: (prependDayBlock dfToday todayStr spacer ++
        (prependDayBlock dfYday ydayStr spacer ++ t2))) =
      [h0] ++ prependDayBlock dfToday todayStr spacer ++
        (prependDayBlock dfYday ydayStr spacer ++ t2) from by simp,
      show (h0 :: t2) = [h0] ++ t2 from rfl]
    rw [dayMarkers_append, dayMarkers_append, dayMarkers_append,
      dayMarkers_append, hmT, hmY, hdm0]
    simp
  · have : prependDayBlock dfToday todayStr spacer =
        [Val.vStr ("Day: " ++ todayStr)] ::
          (dfToday.rows.map (fun r => r.map Val.vStr) ++
            [[Val.vStr "Orders on day:",
              Val.vInt (ordersCountPrepend dfToday)]] ++
            List.replicate spacer []) := rfl
    rw [this]
    rfl

/-- A concrete daily-summary file holding one older day segment
(as left behind by runs of previous days). -/
def exWb0 : Workbook :=
  [("Napokra bontva",
    [[Val.vStr "Order_Id"],
     [Val.vStr "Day: 2025.10.01"],
     [Val.vStr "Orders on day:", Val.vInt 0]])]

/-- Concrete (empty) day dataframe with the pipeline's id column. -/
def exDfEmpty : Df := { cols := [Val.vStr "Order_Id"], rows := [] }

/-- C2 counterexample: running the rotator for `2025.10.10` / `2025.10.09`
on a sheet still holding the segment `Day: 2025.10.01` leaves THREE labeled
day segments — the old segment is not discarded, so the sheet does not hold
exactly two labeled segments after a successful run. -/
theorem claim_C2_counterexample :
    (dayMarkers ((wbSheet (dailySummaryOrdersToExcel (some exWb0)
        exDfEmpty exDfEmpty "2025.10.10" "2025.10.09" "Napokra bontva" 3)
      "Napokra bontva").getD [])).length = 3 := by
  decide

/-- Witness for C2's amended theorem at a concrete file and dataframes. -/
theorem claim_C2_amended_rotation_witness :
    wbHasSheet exWb0 "Napokra bontva" = true ∧
    (∃ wsF ws2,
      wbSheet (dailySummaryOrdersToExcel (some exWb0) exDfEmpty exDfEmpty
          "2025.10.10" "2025.10.09" "Napokra bontva" 3)
        "Napokra bontva" = some wsF ∧
      wbSheet (dailyAfterDelete (some exWb0) exDfEmpty exDfEmpty
          "2025.10.09" "Napokra bontva") "Napokra bontva" = some ws2 ∧
      dayMarkers wsF =
        ("Day: " ++ "2025.10.10") :: ("Day: " ++ "2025.10.09") ::
          dayMarkers ws2 ∧
      cellVal wsF 2 1 = Val.vStr ("Day: " ++ "2025.10.10")) :=
  ⟨by decide,
    claim_C2_amended_rotation exWb0 exDfEmpty exDfEmpty "2025.10.10"
      "2025.10.09" "Napokra bontva" 3 (by decide) (by decide) (by decide)
      (by simp [exDfEmpty]) (by simp [exDfEmpty])⟩

/-!  ## Claims C3, C4, C9: invariants of the build run -/

lemma containsStr_iff (l : List String) (a : String) :
    l.contains a = true ↔ a ∈ l := by
  unfold List.contains
  exact List.elem_iff

lemma alistFind_mapVal {α : Type} (f : Sheet → α) (wb : Workbook)
    (n : String) :
    alistFind (wb.map (fun p => (p.1, f p.2))) n = (wbSheet wb n).map f := by
  induction wb with
  | nil => rfl
  | cons p wb ih =>
    by_cases h : p.1 == n
    · simp [alistFind, wbSheet, List.find?, h]
    · simpa [alistFind, wbSheet, List.find?, h] using ih

lemma alistFind_store_self {α : Type} (l : List (String × α)) (k : String)
    (v : α) : alistFind (alistStore l k v) k = some v := by
  unfold alistStore
  by_cases hany : l.any (fun p => p.1 == k)
  · rw [if_pos hany]
    induction l with
    | nil => simp at hany
    | cons p l ih =>
      by_cases h : p.1 == k
      · simp [alistFind, List.find?, h]
      · have hany' : l.any (fun p => p.1 == k) = true := by
          simpa [h] using hany
        simpa [alistFind, List.find?, h] using ih hany'
  · rw [if_neg hany]
    induction l with
    | nil => simp [alistFind, List.find?]
    | cons p l ih =>
      have h : (p.1 == k) = false := by
        by_contra hc
        simp only [Bool.not_eq_false] at hc
        exact hany (by simp [List.any_cons, hc])
      have hany' : ¬ l.any (fun p => p.1 == k) = true := by
        intro hc
        exact hany (by simp [List.any_cons, hc])
      simpa [alistFind, List.find?, h] using ih hany'

lemma alistStore_map_id {α : Type} (l : List (String × α)) (k : String)
    (v : α) (hany : ¬ l.any (fun p => p.1 == k) = true) :
    l.map (fun q => if q.1 == k then (k, v) else q) = l := by
  induction l with
  | nil => rfl
  | cons q l ih =>
    have hq : (q.1 == k) = false := by
      by_contra hc
      simp only [Bool.not_eq_false] at hc
      exact hany (by simp [List.any_cons, hc])
    have hany' : ¬ l.any (fun p => p.1 == k) = true := fun hc =>
      hany (by simp [List.any_cons, hc])
    have h1 : (if q.1 == k then ((k, v) : String × α) else q) = q := by
      rw [hq]
      rfl
    simp only [List.map_cons, h1, ih hany']

lemma alistFind_store_other {α : Type} (l : List (String × α)) (k : String)
    (v : α) (m : String) (h : (m == k) = false) :
    alistFind (alistStore l k v) m = alistFind l m := by
  have hkm : (k == m) = false := by
    cases hb : (k == m)
    · rfl
    · have : k = m := by simpa using hb
      subst this
      simp at h
  unfold alistStore
  by_cases hany : l.any (fun p => p.1 == k)
  · rw [if_pos hany]
    induction l with
    | nil => rfl
    | cons p l ih =>
      by_cases hp : p.1 == k
      · have hp' : p.1 = k := by simpa using hp
        have hpm : (p.1 == m) = false := by rw [hp']; exact hkm
        simp only [List.map_cons, if_pos hp, alistFind, List.find?, hkm, hpm]
        by_cases hany' : l.any (fun p => p.1 == k)
        · simpa [alistFind, List.find?] using ih hany'
        · rw [alistStore_map_id l k v hany']
      · simp only [List.map_cons, if_neg hp, alistFind, List.find?]
        cases hpm : (p.1 == m)
        · by_cases hany' : l.any (fun p => p.1 == k)
          · simpa [alistFind, List.find?] using ih hany'
          · rw [alistStore_map_id l k v hany']
        · rfl
  · rw [if_neg hany]
    induction l with
    | nil => simp [alistFind, List.find?, h, hkm]
    | cons p l ih =>
      have hany' : ¬ l.any (fun p => p.1 == k) = true := fun hc =>
        hany (by simp [List.any_cons, hc])
      cases hpm : (p.1 == m)
      · simpa [alistFind, List.find?, hpm] using ih hany'
      · simp [alistFind, List.find?, hpm]

lemma wbSheet_append_single_self (wb : Workbook) (n : String) (ws1 : Sheet)
    (h : wbHasSheet wb n = false) :
    wbSheet (wb ++ [(n, ws1)]) n = some ws1 := by
  induction wb with
  | nil => simp [wbSheet, List.find?]
  | cons p wb ih =>
    have hp : (p.1 == n) = false := by
      by_contra hc
      simp only [Bool.not_eq_false] at hc
      simp [wbHasSheet, List.any_cons, hc] at h
    have h' : wbHasSheet wb n = false := by
      simpa [wbHasSheet, List.any_cons, hp] using h
    simpa [wbSheet, List.find?, hp] using ih h'

lemma wbSheet_append_single_other (wb : Workbook) (n : String) (ws1 : Sheet)
    (m : String) (hm : (m == n) = false) :
    wbSheet (wb ++ [(n, ws1)]) m = wbSheet wb m := by
  have hnm : (n == m) = false := by
    cases hb : (n == m)
    · rfl
    · have : n = m := by simpa using hb
      subst this
      simp at hm
  induction wb with
  | nil => simp [wbSheet, List.find?, hnm]
  | cons p wb ih =>
    cases hp : (p.1 == m)
    · simpa [wbSheet, List.find?, hp] using ih
    · simp [wbSheet, List.find?, hp]

lemma wbSheet_setSheet_other (wb : Workbook) (n : String) (ws' : Sheet)
    (m : String) (hm : (m == n) = false) :
    wbSheet (wbSetSheet wb n ws') m = wbSheet wb m := by
  have hnm : (n == m) = false := by
    cases hb : (n == m)
    · rfl
    · have : n = m := by simpa using hb
      subst this
      simp at hm
  induction wb with
  | nil => rfl
  | cons p wb ih =>
    by_cases hp : p.1 == n
    · have hp' : p.1 = n := by simpa using hp
      have hpm : (p.1 == m) = false := by rw [hp']; exact hnm
      simpa [wbSheet, wbSetSheet, List.find?, hp, hpm, hnm] using ih
    · cases hpm : (p.1 == m)
      · simpa [wbSheet, wbSetSheet, List.find?, hp, hpm] using ih
      · simp [wbSheet, wbSetSheet, List.find?, hp, hpm]

/-!  ### Hygiene: the reserved `"Week: "` marker text never occurs as data

The spec reserves the marker prefixes: they are "never emitted as
first-column data".  We carry this as hypotheses on the fetched records,
the window labels and the pre-existing file. -/

/-- A dataframe none of whose values carries the reserved week-marker
text. -/
def dfWeekClean (df : Df) : Prop :=
  ∀ r ∈ df.rows, ∀ v ∈ r, strStartsWith "Week: " v = false

/-- A well-formed week label: the marker built from it scans back to
exactly the label (no embedded marker text, no surrounding whitespace,
non-empty). -/
def labelClean (label : String) : Prop :=
  weekLabelFromCell (Val.vStr ("Week: " ++ label)) = some label

/-- A fetched order stream without reserved marker text in any value. -/
def fetchClean (fetch : String → List Order) : Prop :=
  ∀ l o, o ∈ fetch l → ∀ kv ∈ o, strStartsWith "Week: " kv.2 = false

/-- Every value of `txt` is a stored value of the order or `""`. -/
lemma txtO_cases (o : Order) (path : String) :
    (∃ kv ∈ o, txtO o path = kv.2) ∨ txtO o path = "" := by
  unfold txtO
  rcases hf : o.find? (fun p => p.1 == path) with _ | kv
  · right
    rw [hf]
    rfl
  · left
    exact ⟨kv, List.mem_of_find?_eq_some hf, by rw [hf]; rfl⟩

lemma xmlOrdersToDf_clean (fetch : String → List Order) (l : String)
    (hc : fetchClean fetch) : dfWeekClean (xmlOrdersToDf (fetch l)) := by
  intro r hr v hv
  have hr' : ∃ o, (o ∈ fetch l ∧ orderAllowed o = true) ∧ orderRow o = r := by
    simpa [xmlOrdersToDf, List.mem_filter] using hr
  obtain ⟨o, ⟨homem, _⟩, hro⟩ := hr'
  subst hro
  obtain ⟨p, _, hvp⟩ := List.mem_map.mp hv
  subst hvp
  rcases txtO_cases o p.2 with ⟨kv, hkv, heq⟩ | heq
  · rw [heq]
    exact hc l o homem kv hkv
  · rw [heq]
    rfl

/-- Every value of a reindexed row is a value of the original row or the
`""` fill. -/
lemma reindexRow_mem (header dfCols : List Val) (row : List String) :
    ∀ v ∈ reindexRow header dfCols row, v ∈ row ∨ v = "" := by
  intro v hv
  unfold reindexRow at hv
  obtain ⟨h, _, hveq⟩ := List.mem_map.mp hv
  by_cases hc : dfCols.contains h = true
  · rw [if_pos hc] at hveq
    subst hveq
    rcases Nat.lt_or_ge (dfCols.indexOf h) row.length with hlt | hge
    · left
      rw [List.getD_eq_getElem?_getD, List.getElem?_eq_getElem hlt]
      simpa using List.getElem_mem hlt
    · right
      rw [List.getD_eq_getElem?_getD, List.getElem?_eq_none hge]
      rfl
  · rw [if_neg hc] at hveq
    subst hveq
    right
    rfl

lemma reindexDf_clean (header : List Val) (df : Df) (h : dfWeekClean df) :
    dfWeekClean (reindexDf header df) := by
  intro r hr v hv
  obtain ⟨r0, hr0, hreq⟩ := List.mem_map.mp hr
  subst hreq
  rcases reindexRow_mem header df.cols r0 v hv with hmem | hempty
  · exact h r0 hr0 v hmem
  · subst hempty
    rfl

/-- The labels scanned from a sheet after appending one week block: the old
labels plus exactly the new block's label. -/
lemma weekLabels_appendBlock (ws : Sheet) (df : Df) (label : String)
    (spacer : Nat) (hdf : dfWeekClean df) (hlab : labelClean label) :
    existingWeekLabelsInSheet (appendWeekBlock ws df label spacer) =
      existingWeekLabelsInSheet ws ++ [label] := by
  unfold appendWeekBlock existingWeekLabelsInSheet
  rw [List.filterMap_append]
  congr 1
  rw [show ([Val.vStr ("Week: " ++ label)]
      :: df.rows.map (fun r => r.map Val.vStr)
      ++ [[Val.vStr "Orders in week:", Val.vInt (ordersCountAppend df)]]
      ++ List.replicate spacer [Val.vNone, Val.vStr ""])
    = [[Val.vStr ("Week: " ++ label)]]
      ++ df.rows.map (fun r => r.map Val.vStr)
      ++ [[Val.vStr "Orders in week:", Val.vInt (ordersCountAppend df)]]
      ++ List.replicate spacer [Val.vNone, Val.vStr ""] from rfl]
  rw [List.filterMap_append, List.filterMap_append, List.filterMap_append]
  have h1 : List.filterMap (fun row => weekLabelFromCell (firstCell row))
      [[Val.vStr ("Week: " ++ label)]] = [label] := by
    simp only [List.filterMap_cons, List.filterMap_nil, firstCell,
      List.getD_cons_zero]
    rw [hlab]
  have h2 : List.filterMap (fun row => weekLabelFromCell (firstCell row))
      (df.rows.map (fun r => r.map Val.vStr)) = [] := by
    rw [List.filterMap_eq_nil]
    intro row hrow
    obtain ⟨r0, hr0, hreq⟩ := List.mem_map.mp hrow
    subst hreq
    cases r0 with
    | nil => rfl
    | cons a rest =>
      have ha : strStartsWith "Week: " a = false :=
        hdf (a :: rest) hr0 a (List.mem_cons_self a rest)
      simp [weekLabelFromCell, firstCell, ha]
  have h3 : List.filterMap (fun row => weekLabelFromCell (firstCell row))
      [[Val.vStr "Orders in week:", Val.vInt (ordersCountAppend df)]] = [] := by
    simp only [List.filterMap_cons, List.filterMap_nil, firstCell,
      List.getD_cons_zero]
    rw [show weekLabelFromCell (Val.vStr "Orders in week:") = none from by
      simp [weekLabelFromCell]
      decide]
  have h4 : List.filterMap (fun row => weekLabelFromCell (firstCell row))
      (List.replicate spacer [Val.vNone, Val.vStr ""]) = [] := by
    induction spacer with
    | zero => rfl
    | succ n ih =>
      simpa [List.replicate_succ, List.filterMap_cons, firstCell,
        weekLabelFromCell] using ih
  rw [h1, h2, h3, h4]
  rfl

/-- The run invariant tying the caches to the saved file: the labels cache
knows exactly the file's sheets and their scanned week labels, the two
caches share a domain, and every cached header has a clean first cell
(so the sheet created from it scans to no week label). -/
def Inv (st : BuildState) : Prop :=
  (∀ n, (alistFind st.labelsCache n).isSome =
    (wbSheet (st.file.getD []) n).isSome) ∧
  (∀ n, (alistFind st.headersCache n).isSome =
    (alistFind st.labelsCache n).isSome) ∧
  (∀ n ws, wbSheet (st.file.getD []) n = some ws →
      ∀ l, ((alistFind st.labelsCache n).getD []).contains l =
        (existingWeekLabelsInSheet ws).contains l) ∧
  (∀ n h, alistFind st.headersCache n = some h →
      weekLabelFromCell (h.getD 0 Val.vNone) = none)

/-- Clean first cell of every header row of a file (the reserved marker
text is not a column name). -/
def fileHeadersClean (file : Option Workbook) : Prop :=
  ∀ n ws, wbSheet (file.getD []) n = some ws →
    weekLabelFromCell ((ws.headD []).getD 0 Val.vNone) = none

lemma initState_inv (file : Option Workbook)
    (hclean : fileHeadersClean file) : Inv (initState file) := by
  refine ⟨?_, ?_, ?_, ?_⟩
  · intro n
    unfold initState
    rw [alistFind_mapVal existingWeekLabelsInSheet (file.getD []) n]
    cases wbSheet (file.getD []) n <;> rfl
  · intro n
    unfold initState
    rw [alistFind_mapVal existingWeekLabelsInSheet (file.getD []) n,
      alistFind_mapVal getExistingHeader (file.getD []) n]
    cases wbSheet (file.getD []) n <;> rfl
  · intro n ws hws l
    have hws' : wbSheet (file.getD []) n = some ws := hws
    unfold initState
    rw [alistFind_mapVal existingWeekLabelsInSheet (file.getD []) n, hws']
    rfl
  · intro n h hfind
    unfold initState at hfind
    rw [alistFind_mapVal getExistingHeader (file.getD []) n] at hfind
    rcases hws : wbSheet (file.getD []) n with _ | ws
    · rw [hws] at hfind
      exact Option.noConfusion hfind
    · rw [hws] at hfind
      have : getExistingHeader ws = h := Option.some.inj hfind
      rw [← this]
      exact hclean n ws hws

/-- Under the invariant, the cached label test agrees with the saved
file. -/
lemma sheetHasLabel_eq_fileHasLabel (st : BuildState) (hInv : Inv st)
    (n l : String) : sheetHasLabel st n l = fileHasLabel st.file n l := by
  obtain ⟨h1, _, h3, _⟩ := hInv
  unfold sheetHasLabel fileHasLabel
  rcases hws : wbSheet (st.file.getD []) n with _ | ws
  · rcases hc : alistFind st.labelsCache n with _ | labels
    · rfl
    · exfalso
      have := h1 n
      rw [hc, hws] at this
      exact Bool.noConfusion this
  · exact h3 n ws hws l

/-- The header used for a sheet never has reserved marker text as its first
cell, whether cached or the `ORDER_COLUMNS` fallback. -/
lemma effectiveHeader_clean (st : BuildState) (hInv : Inv st) (n : String) :
    weekLabelFromCell
      ((effectiveHeader (alistFind st.headersCache n)).getD 0 Val.vNone) =
      none := by
  obtain ⟨_, _, _, h4⟩ := hInv
  unfold effectiveHeader
  rcases hc : alistFind st.headersCache n with _ | h
  · simp only [hc]
    decide
  · simp only [hc]
    by_cases he : (h.isEmpty || h.all (fun v => v == Val.vNone)) = true
    · rw [if_pos he]
      decide
    · rw [if_neg he]
      exact h4 n h hc

/-- A sheet freshly created from a clean header scans to no week labels. -/
lemma weekLabels_new_sheet (hdr : List Val)
    (hclean : weekLabelFromCell (hdr.getD 0 Val.vNone) = none) :
    existingWeekLabelsInSheet [hdr] = [] := by
  unfold existingWeekLabelsInSheet
  simp only [List.filterMap_cons, List.filterMap_nil, firstCell]
  rw [hclean]

lemma containsStr_append (a b : List String) (x : String) :
    (a ++ b).contains x = (a.contains x || b.contains x) := by
  rw [Bool.eq_iff_iff, containsStr_iff, Bool.or_eq_true, containsStr_iff,
    containsStr_iff, List.mem_append]

lemma openOrInitWb_sheet_new (file : Option Workbook) (sheetName : String)
    (hdr : List Val) (h : wbHasSheet (file.getD []) sheetName = false) :
    wbSheet (openOrInitWb file sheetName hdr) sheetName = some [hdr] := by
  cases file with
  | none =>
    unfold openOrInitWb wbSheet
    rw [List.find?_cons_of_pos _ (by simp)]
    rfl
  | some wbf =>
    have h' : wbHasSheet wbf sheetName = false := h
    simp only [openOrInitWb, h', Bool.false_eq_true, if_false]
    exact wbSheet_append_single_self wbf sheetName [hdr] h'

lemma openOrInitWb_sheet_other (file : Option Workbook) (sheetName : String)
    (hdr : List Val) (n : String) (hn : (n == sheetName) = false)
    (h : wbHasSheet (file.getD []) sheetName = false) :
    wbSheet (openOrInitWb file sheetName hdr) n =
      wbSheet (file.getD []) n := by
  cases file with
  | none =>
    have hsn : (sheetName == n) = false := by
      cases hb : (sheetName == n)
      · rfl
      · have : sheetName = n := by simpa using hb
        subst this
        simp at hn
    unfold openOrInitWb wbSheet
    rw [List.find?_cons_of_neg _ (by simp [hsn])]
    rfl
  | some wbf =>
    have h' : wbHasSheet wbf sheetName = false := h
    simp only [openOrInitWb, h', Bool.false_eq_true, if_false]
    exact wbSheet_append_single_other wbf sheetName [hdr] n hn

/-- `processSheet` when the sheet is cached and the label already present:
nothing happens. -/
lemma processSheet_eq_skip (label : String) (dfWeek : Df) (spacer : Nat)
    (st : BuildState) (sheetName : String) (labels : List String)
    (hA : alistFind st.labelsCache sheetName = some labels)
    (hc : labels.contains label = true) :
    processSheet label dfWeek spacer st sheetName = (st, []) := by
  simp [processSheet, hA, hc]
  exact (containsStr_iff labels label).mp hc

/-- `processSheet` when the sheet is cached, on a file that has it, and the
label is missing: append the block, save, extend the cache. -/
lemma processSheet_eq_write (label : String) (dfWeek : Df) (spacer : Nat)
    (st : BuildState) (sheetName : String) (labels : List String)
    (wbf : Workbook) (ws0 : Sheet)
    (hA : alistFind st.labelsCache sheetName = some labels)
    (hc : labels.contains label = false)
    (hfile : st.file = some wbf)
    (hws : wbSheet wbf sheetName = some ws0) :
    processSheet label dfWeek spacer st sheetName =
      ({ st with
          file := some (wbSetSheet wbf sheetName
            (appendWeekBlock ws0
              (reindexDf (effectiveHeader (alistFind st.headersCache
                sheetName)) dfWeek) label spacer)),
          labelsCache := alistStore st.labelsCache sheetName
            (labels ++ [label]) },
        [Ev.wrote sheetName label, Ev.saved sheetName label]) := by
  have hhas : wbHasSheet wbf sheetName = true := by
    have : (wbSheet wbf sheetName).isSome := by rw [hws]; rfl
    exact (wbSheet_isSome_iff_hasSheet wbf sheetName).mp this
  have hopen : openOrInitWb st.file sheetName
      (effectiveHeader (alistFind st.headersCache sheetName)) = wbf := by
    rw [hfile]
    exact openOrInitWb_present wbf sheetName _ hhas
  have hnm : ¬ label ∈ labels := by
    intro hm
    rw [(containsStr_iff labels label).mpr hm] at hc
    exact Bool.noConfusion hc
  simp [processSheet, hA, hc, hopen, hws, hnm]

/-- `processSheet` on an uncached sheet: create it (file may or may not
exist), refresh the caches from the fresh sheet, then append — the fresh
sheet scans to no labels when the header is clean. -/
lemma processSheet_eq_new (label : String) (dfWeek : Df) (spacer : Nat)
    (st : BuildState) (sheetName : String)
    (hA : alistFind st.labelsCache sheetName = none)
    (hno : wbHasSheet (st.file.getD []) sheetName = false)
    (hclean : weekLabelFromCell
      ((effectiveHeader (alistFind st.headersCache sheetName)).getD 0
        Val.vNone) = none) :
    processSheet label dfWeek spacer st sheetName =
      ({ st with
          file := some (wbSetSheet
            (openOrInitWb st.file sheetName
              (effectiveHeader (alistFind st.headersCache sheetName)))
            sheetName
            (appendWeekBlock
              [effectiveHeader (alistFind st.headersCache sheetName)]
              (reindexDf (effectiveHeader (alistFind st.headersCache
                sheetName)) dfWeek) label spacer)),
          labelsCache := alistStore
            (alistStore st.labelsCache sheetName [])
            sheetName ([] ++ [label]),
          headersCache := alistStore st.headersCache sheetName
            (effectiveHeader (alistFind st.headersCache sheetName)) },
        [Ev.wrote sheetName label, Ev.saved sheetName label]) := by
  have hnew := openOrInitWb_sheet_new st.file sheetName
    (effectiveHeader (alistFind st.headersCache sheetName)) hno
  have hlabels : existingWeekLabelsInSheet
      [effectiveHeader (alistFind st.headersCache sheetName)] = [] :=
    weekLabels_new_sheet _ hclean
  have hhdr : getExistingHeader
      [effectiveHeader (alistFind st.headersCache sheetName)] =
      effectiveHeader (alistFind st.headersCache sheetName) := rfl
  have hfind1 : alistFind (alistStore st.labelsCache sheetName [])
      sheetName = some ([] : List String) :=
    alistFind_store_self st.labelsCache sheetName []
  simp [processSheet, hA, hnew, hlabels, hhdr, hfind1]

lemma neq_beq_false {a b : String} (h : ¬ a = b) : (a == b) = false := by
  cases hb : (a == b)
  · rfl
  · exact absurd (by simpa using hb) h

/-- What one sheet iteration guarantees: the invariant is preserved, the
iteration either does nothing (exactly when the label is already on this
sheet of the saved file) or appends-and-saves once, afterwards the label is
on the sheet, and both the file's labels and the cached labels only
grow. -/
def SheetStep (st st' : BuildState) (evs : List Ev)
    (sheetName label : String) : Prop :=
  Inv st' ∧
  (evs = [] ∨ evs = [Ev.wrote sheetName label, Ev.saved sheetName label]) ∧
  (evs = [] ↔ fileHasLabel st.file sheetName label = true) ∧
  fileHasLabel st'.file sheetName label = true ∧
  (∀ n l2, fileHasLabel st.file n l2 = true →
      fileHasLabel st'.file n l2 = true) ∧
  (∀ n l2, sheetHasLabel st n l2 = true → sheetHasLabel st' n l2 = true)

lemma processSheet_spec (label : String) (dfWeek : Df) (spacer : Nat)
    (st : BuildState) (sheetName : String) (hInv : Inv st)
    (hdf : dfWeekClean dfWeek) (hlab : labelClean label) :
    SheetStep st (processSheet label dfWeek spacer st sheetName).1
      (processSheet label dfWeek spacer st sheetName).2 sheetName label := by
  obtain ⟨hI1, hI2, hI3, hI4⟩ := hInv
  rcases hA : alistFind st.labelsCache sheetName with _ | labels
  · -- the sheet is unknown: it is created and written
    have hnone : wbSheet (st.file.getD []) sheetName = none := by
      have h1 := hI1 sheetName
      rw [hA] at h1
      rcases hq : wbSheet (st.file.getD []) sheetName with _ | x
      · rfl
      · rw [hq] at h1
        exact absurd h1.symm (by simp)
    have hno : wbHasSheet (st.file.getD []) sheetName = false := by
      cases hb : wbHasSheet (st.file.getD []) sheetName
      · rfl
      · have := (wbSheet_isSome_iff_hasSheet _ sheetName).mpr hb
        rw [hnone] at this
        exact absurd this (by simp)
    have hclean := effectiveHeader_clean st ⟨hI1, hI2, hI3, hI4⟩ sheetName
    rw [processSheet_eq_new label dfWeek spacer st sheetName hA hno hclean]
    set hdr := effectiveHeader (alistFind st.headersCache sheetName)
      with hhdr
    set wbN := openOrInitWb st.file sheetName hdr with hwbN
    set dfA := reindexDf hdr dfWeek with hdfA
    set wsNew := appendWeekBlock [hdr] dfA label spacer with hwsNew
    have hnew : wbSheet wbN sheetName = some [hdr] :=
      openOrInitWb_sheet_new st.file sheetName hdr hno
    have hhasN : wbHasSheet wbN sheetName = true :=
      (wbSheet_isSome_iff_hasSheet wbN sheetName).mp (by rw [hnew]; rfl)
    have hwsNewSheet : wbSheet (wbSetSheet wbN sheetName wsNew) sheetName =
        some wsNew := wbSheet_setSheet_self wbN sheetName wsNew hhasN
    have hlabNew : existingWeekLabelsInSheet wsNew = [label] := by
      rw [hwsNew, weekLabels_appendBlock [hdr] dfA label spacer
        (reindexDf_clean hdr dfWeek hdf) hlab,
        weekLabels_new_sheet hdr hclean]
      rfl
    have hfilebefore : fileHasLabel st.file sheetName label = false := by
      unfold fileHasLabel
      rw [hnone]
    have hother : ∀ n, ¬ n = sheetName →
        wbSheet (wbSetSheet wbN sheetName wsNew) n =
          wbSheet (st.file.getD []) n := by
      intro n hn
      rw [wbSheet_setSheet_other wbN sheetName wsNew n (neq_beq_false hn)]
      exact openOrInitWb_sheet_other st.file sheetName hdr n
        (neq_beq_false hn) hno
    unfold SheetStep Inv
    simp only [Option.getD_some]
    refine ⟨⟨?_, ?_, ?_, ?_⟩, Or.inr trivial, ?_, ?_, ?_, ?_⟩
    · intro n
      by_cases hn : n = sheetName
      · subst hn
        rw [alistFind_store_self, hwsNewSheet]
        rfl
      · rw [alistFind_store_other _ _ _ n (neq_beq_false hn),
          alistFind_store_other _ _ _ n (neq_beq_false hn),
          hother n hn]
        exact hI1 n
    · intro n
      by_cases hn : n = sheetName
      · subst hn
        rw [alistFind_store_self, alistFind_store_self]
        rfl
      · rw [alistFind_store_other _ _ _ n (neq_beq_false hn),
          alistFind_store_other _ _ _ n (neq_beq_false hn),
          alistFind_store_other _ _ _ n (neq_beq_false hn)]
        exact hI2 n
    · intro n ws hws l
      by_cases hn : n = sheetName
      · subst hn
        rw [hwsNewSheet] at hws
        have hws' : wsNew = ws := Option.some.inj hws
        rw [← hws', hlabNew, alistFind_store_self]
        rfl
      · rw [hother n hn] at hws
        rw [alistFind_store_other _ _ _ n (neq_beq_false hn),
          alistFind_store_other _ _ _ n (neq_beq_false hn)]
        exact hI3 n ws hws l
    · intro n h hfind
      by_cases hn : n = sheetName
      · subst hn
        rw [alistFind_store_self] at hfind
        have : hdr = h := Option.some.inj hfind
        rw [← this]
        exact hclean
      · rw [alistFind_store_other _ _ _ n (neq_beq_false hn)] at hfind
        exact hI4 n h hfind
    · rw [hfilebefore]
      simp
    · unfold fileHasLabel
      simp only [Option.getD_some, hwsNewSheet]
      rw [hlabNew]
      simp
    · intro n l2 htrue
      by_cases hn : n = sheetName
      · subst hn
        unfold fileHasLabel at htrue
        simp only [hnone] at htrue
        exact Bool.noConfusion htrue
      · unfold fileHasLabel at htrue ⊢
        simp only [Option.getD_some]
        rw [hother n hn]
        exact htrue
    · intro n l2 htrue
      by_cases hn : n = sheetName
      · subst hn
        unfold sheetHasLabel at htrue
        rw [hA] at htrue
        simp at htrue
      · unfold sheetHasLabel at htrue ⊢
        simp only [Option.getD_some]
        rw [alistFind_store_other _ _ _ n (neq_beq_false hn),
          alistFind_store_other _ _ _ n (neq_beq_false hn)]
        exact htrue
  · -- the sheet is cached, hence exists in the file
    have hws0 : ∃ ws0, wbSheet (st.file.getD []) sheetName = some ws0 := by
      have h1 := hI1 sheetName
      rw [hA] at h1
      rcases hq : wbSheet (st.file.getD []) sheetName with _ | x
      · rw [hq] at h1
        exact absurd h1 (by simp)
      · exact ⟨x, rfl⟩
    obtain ⟨ws0, hws0⟩ := hws0
    have hfileSome : ∃ wbf, st.file = some wbf := by
      rcases hf : st.file with _ | wbf
      · exfalso
        rw [hf] at hws0
        exact Option.noConfusion hws0
      · exact ⟨wbf, rfl⟩
    obtain ⟨wbf, hfileSome⟩ := hfileSome
    have hwsf : wbSheet wbf sheetName = some ws0 := by
      rw [hfileSome] at hws0
      exact hws0
    have hlabeq : ∀ l, labels.contains l =
        (existingWeekLabelsInSheet ws0).contains l := by
      intro l
      have := hI3 sheetName ws0 hws0 l
      rw [hA] at this
      exact this
    have hflab : fileHasLabel st.file sheetName label =
        labels.contains label := by
      unfold fileHasLabel
      rw [hws0, hlabeq label]
    by_cases hc : labels.contains label = true
    · rw [processSheet_eq_skip label dfWeek spacer st sheetName labels hA hc]
      refine ⟨⟨hI1, hI2, hI3, hI4⟩, Or.inl rfl, ?_, ?_, ?_, ?_⟩
      · rw [hflab, hc]
        simp
      · rw [hflab]
        exact hc
      · intro n l2 h
        exact h
      · intro n l2 h
        exact h
    · have hc' : labels.contains label = false := by
        cases hb : labels.contains label
        · rfl
        · exact absurd hb hc
      rw [processSheet_eq_write label dfWeek spacer st sheetName labels wbf
        ws0 hA hc' hfileSome hwsf]
      set hdr := effectiveHeader (alistFind st.headersCache sheetName)
        with hhdr
      set dfA := reindexDf hdr dfWeek with hdfA
      set ws' := appendWeekBlock ws0 dfA label spacer with hws'
      have hhas : wbHasSheet wbf sheetName = true :=
        (wbSheet_isSome_iff_hasSheet wbf sheetName).mp (by rw [hwsf]; rfl)
      have hwsSheet : wbSheet (wbSetSheet wbf sheetName ws') sheetName =
          some ws' := wbSheet_setSheet_self wbf sheetName ws' hhas
      have hlabNew : existingWeekLabelsInSheet ws' =
          existingWeekLabelsInSheet ws0 ++ [label] := by
        rw [hws']
        exact weekLabels_appendBlock ws0 dfA label spacer
          (reindexDf_clean hdr dfWeek hdf) hlab
      have hother : ∀ n, ¬ n = sheetName →
          wbSheet (wbSetSheet wbf sheetName ws') n =
            wbSheet (st.file.getD []) n := by
        intro n hn
        rw [wbSheet_setSheet_other wbf sheetName ws' n (neq_beq_false hn)]
        rw [hfileSome]
        rfl
      unfold SheetStep Inv
      simp only [Option.getD_some]
      refine ⟨⟨?_, ?_, ?_, ?_⟩, Or.inr trivial, ?_, ?_, ?_, ?_⟩
      · intro n
        by_cases hn : n = sheetName
        · subst hn
          rw [alistFind_store_self, hwsSheet]
          rfl
        · rw [alistFind_store_other _ _ _ n (neq_beq_false hn),
            hother n hn]
          exact hI1 n
      · intro n
        by_cases hn : n = sheetName
        · subst hn
          rw [alistFind_store_self]
          have h2 := hI2 n
          rw [hA] at h2
          rw [h2]
          rfl
        · rw [alistFind_store_other _ _ _ n (neq_beq_false hn)]
          exact hI2 n
      · intro n ws hws l
        by_cases hn : n = sheetName
        · subst hn
          rw [hwsSheet] at hws
          have hwseq : ws' = ws := Option.some.inj hws
          rw [← hwseq, hlabNew, alistFind_store_self]
          simp only [Option.getD_some]
          rw [containsStr_append, containsStr_append, hlabeq l]
        · rw [hother n hn] at hws
          rw [alistFind_store_other _ _ _ n (neq_beq_false hn)]
          exact hI3 n ws hws l
      · intro n h hfind
        exact hI4 n h hfind
      · rw [hflab, hc']
        simp
      · unfold fileHasLabel
        simp only [Option.getD_some, hwsSheet]
        rw [hlabNew, containsStr_append]
        simp
      · intro n l2 htrue
        unfold fileHasLabel at htrue ⊢
        simp only [Option.getD_some]
        by_cases hn : n = sheetName
        · subst hn
          simp only [hws0] at htrue
          simp only [hwsSheet]
          rw [hlabNew, containsStr_append, htrue]
          rfl
        · rw [hother n hn]
          exact htrue
      · intro n l2 htrue
        unfold sheetHasLabel at htrue ⊢
        simp only [Option.getD_some]
        by_cases hn : n = sheetName
        · subst hn
          rw [alistFind_store_self]
          rw [hA] at htrue
          simp only [Option.getD_some] at htrue ⊢
          rw [containsStr_append, htrue]
          rfl
        · rw [alistFind_store_other _ _ _ n (neq_beq_false hn)]
          exact htrue

/-- The inner `for sheet in months_hit` fold of one window, named so its
properties can be stated once. -/
def foldSheets (label : String) (dfWeek : Df) (spacer : Nat)
    (sheets : List String) (acc : BuildState × List Ev) :
    BuildState × List Ev :=
  sheets.foldl
    (fun acc sheetName =>
      let pr := processSheet label dfWeek spacer acc.1 sheetName
      (pr.1, acc.2 ++ pr.2))
    acc

/-- `processWindow` re-expressed through `foldSheets` (definitional). -/
lemma processWindow_eq (fetch : String → List Order) (spacer : Nat)
    (st : BuildState) (w : WindowInfo) :
    processWindow fetch spacer st w =
      if (!w.monthsHit.isEmpty) &&
          w.monthsHit.all (fun s => sheetHasLabel st s w.label) then
        (st, [])
      else
        if (xmlOrdersToDf (fetch w.label)).rows.isEmpty then
          (st, [Ev.fetched w.label])
        else
          ((foldSheets w.label (xmlOrdersToDf (fetch w.label)) spacer
              w.monthsHit (st, [])).1,
            Ev.fetched w.label ::
              (foldSheets w.label (xmlOrdersToDf (fetch w.label)) spacer
                w.monthsHit (st, [])).2) := rfl

/-- What the inner sheet fold guarantees, by induction along the sheet
list with the already-collected events generalized: the invariant is
preserved, file and cache labels only grow, after the fold every visited
sheet carries the label, and every event beyond the initial ones is a
write or save to a visited sheet whose saved file was still missing the
label when the fold started. -/
lemma foldSheets_spec (label : String) (dfWeek : Df) (spacer : Nat)
    (hdf : dfWeekClean dfWeek) (hlab : labelClean label) :
    ∀ (sheets : List String) (st : BuildState) (evs0 : List Ev), Inv st →
      Inv (foldSheets label dfWeek spacer sheets (st, evs0)).1 ∧
      (∀ n l2, fileHasLabel st.file n l2 = true →
        fileHasLabel (foldSheets label dfWeek spacer sheets
          (st, evs0)).1.file n l2 = true) ∧
      (∀ n l2, sheetHasLabel st n l2 = true →
        sheetHasLabel (foldSheets label dfWeek spacer sheets (st, evs0)).1
          n l2 = true) ∧
      (∀ n, n ∈ sheets →
        fileHasLabel (foldSheets label dfWeek spacer sheets
          (st, evs0)).1.file n label = true) ∧
      (∀ ev, ev ∈ (foldSheets label dfWeek spacer sheets (st, evs0)).2 →
        ev ∈ evs0 ∨
        ∃ n, n ∈ sheets ∧
          (ev = Ev.wrote n label ∨ ev = Ev.saved n label) ∧
          fileHasLabel st.file n label = false) := by
  intro sheets
  induction sheets with
  | nil =>
    intro st evs0 hInv
    exact ⟨hInv, fun n l2 h => h, fun n l2 h => h,
      fun n hn => absurd hn (List.not_mem_nil n),
      fun ev hev => Or.inl hev⟩
  | cons s ss ih =>
    intro st evs0 hInv
    obtain ⟨hInv', hevsShape, hevsIff, hafter, hmonoF, hmonoC⟩ :=
      processSheet_spec label dfWeek spacer st s hInv hdf hlab
    have hstep : foldSheets label dfWeek spacer (s :: ss) (st, evs0) =
        foldSheets label dfWeek spacer ss
          ((processSheet label dfWeek spacer st s).1,
            evs0 ++ (processSheet label dfWeek spacer st s).2) := rfl
    rw [hstep]
    obtain ⟨A, B, C, D, E⟩ := ih (processSheet label dfWeek spacer st s).1
      (evs0 ++ (processSheet label dfWeek spacer st s).2) hInv'
    refine ⟨A, ?_, ?_, ?_, ?_⟩
    · intro n l2 h
      exact B n l2 (hmonoF n l2 h)
    · intro n l2 h
      exact C n l2 (hmonoC n l2 h)
    · intro n hn
      rcases List.mem_cons.mp hn with rfl | hss
      · exact B n label hafter
      · exact D n hss
    · intro ev hev
      rcases E ev hev with hin | ⟨n, hnss, hform, hmissN⟩
      · rcases List.mem_append.mp hin with h0 | hpr
        · exact Or.inl h0
        · have hne : (processSheet label dfWeek spacer st s).2 ≠ [] := by
            intro hnil
            rw [hnil] at hpr
            exact absurd hpr (List.not_mem_nil ev)
          have hmiss : fileHasLabel st.file s label = false := by
            cases hb : fileHasLabel st.file s label
            · rfl
            · exact absurd (hevsIff.mpr hb) hne
          rcases hevsShape with hnil | hpair
          · exact absurd hnil hne
          · rw [hpair] at hpr
            rcases List.mem_cons.mp hpr with rfl | hpr2
            · exact Or.inr ⟨s, List.mem_cons_self s ss, Or.inl rfl, hmiss⟩
            · rcases List.mem_cons.mp hpr2 with rfl | hpr3
              · exact Or.inr ⟨s, List.mem_cons_self s ss, Or.inr rfl, hmiss⟩
              · exact absurd hpr3 (List.not_mem_nil ev)
      · have hmiss0 : fileHasLabel st.file n label = false := by
          cases hb : fileHasLabel st.file n label
          · rfl
          · rw [hmonoF n label hb] at hmissN
            exact Bool.noConfusion hmissN
        exact Or.inr ⟨n, List.mem_cons_of_mem s hnss, hform, hmiss0⟩

/-- The fetch event happens exactly when the skip condition fails — pure
branch structure, needing no invariant. -/
lemma processWindow_fetched_iff (fetch : String → List Order) (spacer : Nat)
    (st : BuildState) (w : WindowInfo) :
    (Ev.fetched w.label ∈ (processWindow fetch spacer st w).2) ↔
      ¬ ((!w.monthsHit.isEmpty) &&
          w.monthsHit.all (fun s => sheetHasLabel st s w.label)) = true := by
  rw [processWindow_eq]
  by_cases hskip : ((!w.monthsHit.isEmpty) &&
      w.monthsHit.all (fun s => sheetHasLabel st s w.label)) = true
  · rw [if_pos hskip]
    simp [hskip]
  · rw [if_neg hskip]
    by_cases hrows : (xmlOrdersToDf (fetch w.label)).rows.isEmpty = true
    · rw [if_pos hrows]
      simp [hskip]
    · rw [if_neg hrows]
      simp [hskip]

/-- A skipped window does nothing at all. -/
lemma processWindow_skip (fetch : String → List Order) (spacer : Nat)
    (st : BuildState) (w : WindowInfo)
    (hskip : ((!w.monthsHit.isEmpty) &&
      w.monthsHit.all (fun s => sheetHasLabel st s w.label)) = true) :
    processWindow fetch spacer st w = (st, []) := by
  rw [processWindow_eq, if_pos hskip]

/-- What one window iteration guarantees under the invariant: the
invariant is preserved, labels only grow, every event is the fetch or a
write/save to a touched sheet that was still missing the label, and a
window with a nonempty fetched record set leaves its label on every
touched sheet. -/
lemma processWindow_spec (fetch : String → List Order) (spacer : Nat)
    (st : BuildState) (w : WindowInfo) (hInv : Inv st)
    (hdf : dfWeekClean (xmlOrdersToDf (fetch w.label)))
    (hlab : labelClean w.label) :
    Inv (processWindow fetch spacer st w).1 ∧
    (∀ n l2, fileHasLabel st.file n l2 = true →
      fileHasLabel (processWindow fetch spacer st w).1.file n l2 = true) ∧
    (∀ n l2, sheetHasLabel st n l2 = true →
      sheetHasLabel (processWindow fetch spacer st w).1 n l2 = true) ∧
    (∀ ev, ev ∈ (processWindow fetch spacer st w).2 →
      ev = Ev.fetched w.label ∨
      ∃ n, n ∈ w.monthsHit ∧
        (ev = Ev.wrote n w.label ∨ ev = Ev.saved n w.label) ∧
        fileHasLabel st.file n w.label = false) ∧
    ((xmlOrdersToDf (fetch w.label)).rows ≠ [] →
      ∀ n, n ∈ w.monthsHit →
        fileHasLabel (processWindow fetch spacer st w).1.file n
          w.label = true) := by
  rw [processWindow_eq]
  by_cases hskip : ((!w.monthsHit.isEmpty) &&
      w.monthsHit.all (fun s => sheetHasLabel st s w.label)) = true
  · rw [if_pos hskip]
    refine ⟨hInv, fun n l2 h => h, fun n l2 h => h,
      fun ev hev => absurd hev (List.not_mem_nil ev), ?_⟩
    intro _ n hn
    have hall : w.monthsHit.all
        (fun s => sheetHasLabel st s w.label) = true :=
      (Bool.and_eq_true _ _).mp hskip |>.2
    have hs : sheetHasLabel st n w.label = true :=
      List.all_eq_true.mp hall n hn
    rw [← sheetHasLabel_eq_fileHasLabel st hInv]
    exact hs
  · rw [if_neg hskip]
    by_cases hrows : (xmlOrdersToDf (fetch w.label)).rows.isEmpty = true
    · rw [if_pos hrows]
      refine ⟨hInv, fun n l2 h => h, fun n l2 h => h, ?_, ?_⟩
      · intro ev hev
        rcases List.mem_cons.mp hev with rfl | hev2
        · exact Or.inl rfl
        · exact absurd hev2 (List.not_mem_nil ev)
      · intro hne
        exact absurd (List.isEmpty_iff.mp hrows) hne
    · rw [if_neg hrows]
      obtain ⟨A, B, C, D, E⟩ := foldSheets_spec w.label
        (xmlOrdersToDf (fetch w.label)) spacer hdf hlab
        w.monthsHit st [] hInv
      refine ⟨A, B, C, ?_, fun _ n hn => D n hn⟩
      intro ev hev
      rcases List.mem_cons.mp hev with rfl | hev2
      · exact Or.inl rfl
      · rcases E ev hev2 with h0 | ⟨n, hn, hform, hmiss⟩
        · exact absurd h0 (List.not_mem_nil ev)
        · exact Or.inr ⟨n, hn, hform, hmiss⟩

/-- The state reached after processing a window. -/
def stepState (fetch : String → List Order) (spacer : Nat)
    (st : BuildState) (w : WindowInfo) : BuildState :=
  (processWindow fetch spacer st w).1

/-- The build state after processing a prefix of the window list from the
primed run-start state. -/
def buildStateAfter (fetch : String → List Order) (spacer : Nat)
    (file : Option Workbook) (windows : List WindowInfo) : BuildState :=
  windows.foldl (stepState fetch spacer) (initState file)

lemma runBuild_state_eq (fetch : String → List Order) (spacer : Nat) :
    ∀ (ws : List WindowInfo) (st : BuildState) (evs : List Ev),
      (ws.foldl (fun acc w =>
        let pr := processWindow fetch spacer acc.1 w
        (pr.1, acc.2 ++ pr.2)) (st, evs)).1 =
      ws.foldl (stepState fetch spacer) st := by
  intro ws
  induction ws with
  | nil =>
    intro st evs
    rfl
  | cons w rest ih =>
    intro st evs
    exact ih _ _

/-- The final state of a run is the fold of the per-window state steps. -/
lemma runBuild_fst (fetch : String → List Order) (spacer : Nat)
    (file : Option Workbook) (windows : List WindowInfo) :
    (runBuild fetch spacer file windows).1 =
      buildStateAfter fetch spacer file windows :=
  runBuild_state_eq fetch spacer windows (initState file) []

/-- Along any window fold from an invariant state (with clean labels and
fetches), the invariant holds at the end and the saved file's labels only
grow. -/
lemma foldWindows_inv (fetch : String → List Order) (spacer : Nat)
    (hfc : fetchClean fetch) :
    ∀ (ws : List WindowInfo) (st : BuildState), Inv st →
      (∀ w, w ∈ ws → labelClean w.label) →
      Inv (ws.foldl (stepState fetch spacer) st) ∧
      (∀ n l, fileHasLabel st.file n l = true →
        fileHasLabel (ws.foldl (stepState fetch spacer) st).file n
          l = true) := by
  intro ws
  induction ws with
  | nil =>
    intro st hInv _
    exact ⟨hInv, fun n l h => h⟩
  | cons w rest ih =>
    intro st hInv hlabs
    obtain ⟨A, B, _, _, _⟩ := processWindow_spec fetch spacer st w hInv
      (xmlOrdersToDf_clean fetch w.label hfc)
      (hlabs w (List.mem_cons_self w rest))
    obtain ⟨A2, B2⟩ := ih (stepState fetch spacer st w) A
      (fun v hv => hlabs v (List.mem_cons_of_mem w hv))
    exact ⟨A2, fun n l h => B2 n l (B n l h)⟩

/-- After a window fold, every window of the list with a nonempty fetched
record set has its label on every sheet it touches. -/
lemma foldWindows_coverage (fetch : String → List Order) (spacer : Nat)
    (hfc : fetchClean fetch) :
    ∀ (ws : List WindowInfo) (st : BuildState), Inv st →
      (∀ w, w ∈ ws → labelClean w.label) →
      ∀ w, w ∈ ws → (xmlOrdersToDf (fetch w.label)).rows ≠ [] →
        ∀ n, n ∈ w.monthsHit →
          fileHasLabel (ws.foldl (stepState fetch spacer) st).file n
            w.label = true := by
  intro ws
  induction ws with
  | nil =>
    intro st _ _ w hw
    exact absurd hw (List.not_mem_nil w)
  | cons v rest ih =>
    intro st hInv hlabs w hw hrows n hn
    obtain ⟨A, _, _, _, Cov⟩ := processWindow_spec fetch spacer st v hInv
      (xmlOrdersToDf_clean fetch v.label hfc)
      (hlabs v (List.mem_cons_self v rest))
    rcases List.mem_cons.mp hw with rfl | hwrest
    · have h1 : fileHasLabel (stepState fetch spacer st w).file n
          w.label = true := Cov hrows n hn
      have hmono := (foldWindows_inv fetch spacer hfc rest
        (stepState fetch spacer st w) A
        (fun u hu => hlabs u (List.mem_cons_of_mem w hu))).2
      exact hmono n w.label h1
    · exact ih (stepState fetch spacer st v) A
        (fun u hu => hlabs u (List.mem_cons_of_mem v hu)) w hwrest hrows n hn

/-- The primed caches agree with the file they were read from — no
invariant needed, the cache is literally computed from the file. -/
lemma sheetHasLabel_initState (file : Option Workbook) (n l : String) :
    sheetHasLabel (initState file) n l = fileHasLabel file n l := by
  unfold sheetHasLabel initState fileHasLabel
  rw [alistFind_mapVal existingWeekLabelsInSheet (file.getD []) n]
  rcases hws : wbSheet (file.getD []) n with _ | ws
  · rfl
  · rfl

/-- On a state freshly primed from a file that already records every
label a nonempty-fetch window needs, a window is skipped outright or is
fetch-only: the state never changes. -/
lemma processWindow_silent (fetch : String → List Order) (spacer : Nat)
    (file : Option Workbook) (w : WindowInfo)
    (hcov : (xmlOrdersToDf (fetch w.label)).rows ≠ [] →
      ∀ n, n ∈ w.monthsHit → fileHasLabel file n w.label = true) :
    processWindow fetch spacer (initState file) w =
      (initState file, []) ∨
    processWindow fetch spacer (initState file) w =
      (initState file, [Ev.fetched w.label]) := by
  by_cases hskip : ((!w.monthsHit.isEmpty) &&
      w.monthsHit.all
        (fun s => sheetHasLabel (initState file) s w.label)) = true
  · exact Or.inl (processWindow_skip fetch spacer (initState file) w hskip)
  · rw [processWindow_eq, if_neg hskip]
    by_cases hrows : (xmlOrdersToDf (fetch w.label)).rows.isEmpty = true
    · rw [if_pos hrows]
      exact Or.inr rfl
    · rw [if_neg hrows]
      have hrows' : (xmlOrdersToDf (fetch w.label)).rows ≠ [] := by
        intro hnil
        exact hrows (by rw [hnil]; rfl)
      have hmh : w.monthsHit = [] := by
        by_contra hne
        apply hskip
        rw [Bool.and_eq_true]
        constructor
        · cases hml : w.monthsHit with
          | nil => exact absurd hml hne
          | cons a as => rfl
        · rw [List.all_eq_true]
          intro s hs
          rw [sheetHasLabel_initState]
          exact hcov hrows' s hs
      rw [hmh]
      exact Or.inr rfl

/-- A whole window fold from a primed state whose file already records
everything: the state never changes and every event collected beyond the
initial ones is a fetch. -/
lemma foldWindows_silent (fetch : String → List Order) (spacer : Nat)
    (file : Option Workbook) :
    ∀ (ws : List WindowInfo),
      (∀ w, w ∈ ws → (xmlOrdersToDf (fetch w.label)).rows ≠ [] →
        ∀ n, n ∈ w.monthsHit → fileHasLabel file n w.label = true) →
      ∀ (evs : List Ev),
      (ws.foldl (fun acc w =>
        let pr := processWindow fetch spacer acc.1 w
        (pr.1, acc.2 ++ pr.2)) (initState file, evs)).1 = initState file ∧
      (∀ ev, ev ∈ (ws.foldl (fun acc w =>
          let pr := processWindow fetch spacer acc.1 w
          (pr.1, acc.2 ++ pr.2)) (initState file, evs)).2 →
        ev ∈ evs ∨ ∃ l, ev = Ev.fetched l) := by
  intro ws
  induction ws with
  | nil =>
    intro _ evs
    exact ⟨rfl, fun ev hev => Or.inl hev⟩
  | cons w rest ih =>
    intro hcov evs
    have hstep : ((w :: rest).foldl (fun acc v =>
        let pr := processWindow fetch spacer acc.1 v
        (pr.1, acc.2 ++ pr.2)) (initState file, evs)) =
      (rest.foldl (fun acc v =>
        let pr := processWindow fetch spacer acc.1 v
        (pr.1, acc.2 ++ pr.2))
        ((processWindow fetch spacer (initState file) w).1,
          evs ++ (processWindow fetch spacer (initState file) w).2)) := rfl
    rcases processWindow_silent fetch spacer file w
        (hcov w (List.mem_cons_self w rest)) with h | h
    · have h1 : (processWindow fetch spacer (initState file) w).1 =
          initState file := by rw [h]
      have h2 : (processWindow fetch spacer (initState file) w).2 =
          [] := by rw [h]
      rw [hstep, h1, h2, List.append_nil]
      exact ih (fun v hv => hcov v (List.mem_cons_of_mem w hv)) evs
    · have h1 : (processWindow fetch spacer (initState file) w).1 =
          initState file := by rw [h]
      have h2 : (processWindow fetch spacer (initState file) w).2 =
          [Ev.fetched w.label] := by rw [h]
      rw [hstep, h1, h2]
      obtain ⟨A, B⟩ := ih (fun v hv => hcov v (List.mem_cons_of_mem w hv))
        (evs ++ [Ev.fetched w.label])
      refine ⟨A, ?_⟩
      intro ev hev
      rcases B ev hev with hin | hl
      · rcases List.mem_append.mp hin with h0 | hf
        · exact Or.inl h0
        · rcases List.mem_cons.mp hf with rfl | hf2
          · exact Or.inr ⟨w.label, rfl⟩
          · exact absurd hf2 (List.not_mem_nil ev)
      · exact Or.inr hl

/-- C3.  For every window of a `build_monthly_workbook_for_previous_weeks`
run (taken at the state reached after the preceding windows), provided the
window touches at least one sheet: the window is skipped — not fetched —
if and only if its label is already present on every sheet it touches in
the saved file; a skipped window produces no events at all; and every
event of a processed window is the fetch or a write/save to a touched
sheet on which the label was still missing, so a sheet already holding
the label is never written again; and a processed window whose fetched
record set is nonempty delivers its segment — afterwards the label is
present on every sheet it touches, in particular on each sheet that was
still missing it. -/
theorem claim_C3_skip_iff (fetch : String → List Order) (spacer : Nat)
    (file0 : Option Workbook) (windows : List WindowInfo) (i : Nat)
    (hi : i < windows.length)
    (hfc : fetchClean fetch)
    (hlabs : ∀ w, w ∈ windows → labelClean w.label)
    (hfile : fileHeadersClean file0)
    (hmh : (windows.get ⟨i, hi⟩).monthsHit ≠ []) :
    ((Ev.fetched (windows.get ⟨i, hi⟩).label ∉
        (processWindow fetch spacer
          (buildStateAfter fetch spacer file0 (windows.take i))
          (windows.get ⟨i, hi⟩)).2) ↔
      (∀ n, n ∈ (windows.get ⟨i, hi⟩).monthsHit →
        fileHasLabel
          (buildStateAfter fetch spacer file0 (windows.take i)).file n
          (windows.get ⟨i, hi⟩).label = true)) ∧
    ((Ev.fetched (windows.get ⟨i, hi⟩).label ∉
        (processWindow fetch spacer
          (buildStateAfter fetch spacer file0 (windows.take i))
          (windows.get ⟨i, hi⟩)).2) →
      (processWindow fetch spacer
        (buildStateAfter fetch spacer file0 (windows.take i))
        (windows.get ⟨i, hi⟩)).2 = []) ∧
    (∀ ev, ev ∈ (processWindow fetch spacer
        (buildStateAfter fetch spacer file0 (windows.take i))
        (windows.get ⟨i, hi⟩)).2 →
      ev = Ev.fetched (windows.get ⟨i, hi⟩).label ∨
      ∃ n, n ∈ (windows.get ⟨i, hi⟩).monthsHit ∧
        (ev = Ev.wrote n (windows.get ⟨i, hi⟩).label ∨
          ev = Ev.saved n (windows.get ⟨i, hi⟩).label) ∧
        fileHasLabel
          (buildStateAfter fetch spacer file0 (windows.take i)).file n
          (windows.get ⟨i, hi⟩).label = false) ∧
    ((xmlOrdersToDf (fetch (windows.get ⟨i, hi⟩).label)).rows ≠ [] →
      ∀ n, n ∈ (windows.get ⟨i, hi⟩).monthsHit →
        fileHasLabel
          (processWindow fetch spacer
            (buildStateAfter fetch spacer file0 (windows.take i))
            (windows.get ⟨i, hi⟩)).1.file n
          (windows.get ⟨i, hi⟩).label = true) := by
  have hInv : Inv (buildStateAfter fetch spacer file0 (windows.take i)) :=
    (foldWindows_inv fetch spacer hfc (windows.take i) (initState file0)
      (initState_inv file0 hfile)
      (fun w hw => hlabs w (List.take_subset i windows hw))).1
  have hiff := processWindow_fetched_iff fetch spacer
    (buildStateAfter fetch spacer file0 (windows.take i))
    (windows.get ⟨i, hi⟩)
  have hskip_of_all :
      (∀ n, n ∈ (windows.get ⟨i, hi⟩).monthsHit →
        fileHasLabel
          (buildStateAfter fetch spacer file0 (windows.take i)).file n
          (windows.get ⟨i, hi⟩).label = true) →
      ((!(windows.get ⟨i, hi⟩).monthsHit.isEmpty) &&
        (windows.get ⟨i, hi⟩).monthsHit.all
          (fun s => sheetHasLabel
            (buildStateAfter fetch spacer file0 (windows.take i)) s
            (windows.get ⟨i, hi⟩).label)) = true := by
    intro hall
    rw [Bool.and_eq_true]
    constructor
    · cases hml : (windows.get ⟨i, hi⟩).monthsHit with
      | nil => exact absurd hml hmh
      | cons a as => rfl
    · rw [List.all_eq_true]
      intro s hs
      rw [sheetHasLabel_eq_fileHasLabel _ hInv]
      exact hall s hs
  refine ⟨⟨?_, ?_⟩, ?_, ?_, ?_⟩
  · intro hnot n hn
    have hskip : ((!(windows.get ⟨i, hi⟩).monthsHit.isEmpty) &&
        (windows.get ⟨i, hi⟩).monthsHit.all
          (fun s => sheetHasLabel
            (buildStateAfter fetch spacer file0 (windows.take i)) s
            (windows.get ⟨i, hi⟩).label)) = true := by
      by_contra hns
      exact hnot (hiff.mpr hns)
    have hall := (Bool.and_eq_true _ _).mp hskip |>.2
    rw [← sheetHasLabel_eq_fileHasLabel _ hInv]
    exact List.all_eq_true.mp hall n hn
  · intro hall hmem
    exact (hiff.mp hmem) (hskip_of_all hall)
  · intro hnot
    have hskip : ((!(windows.get ⟨i, hi⟩).monthsHit.isEmpty) &&
        (windows.get ⟨i, hi⟩).monthsHit.all
          (fun s => sheetHasLabel
            (buildStateAfter fetch spacer file0 (windows.take i)) s
            (windows.get ⟨i, hi⟩).label)) = true := by
      by_contra hns
      exact hnot (hiff.mpr hns)
    rw [processWindow_skip fetch spacer _ _ hskip]
  · exact (processWindow_spec fetch spacer
      (buildStateAfter fetch spacer file0 (windows.take i))
      (windows.get ⟨i, hi⟩) hInv
      (xmlOrdersToDf_clean fetch (windows.get ⟨i, hi⟩).label hfc)
      (hlabs (windows.get ⟨i, hi⟩) (List.get_mem windows i hi))).2.2.2.1
  · exact (processWindow_spec fetch spacer
      (buildStateAfter fetch spacer file0 (windows.take i))
      (windows.get ⟨i, hi⟩) hInv
      (xmlOrdersToDf_clean fetch (windows.get ⟨i, hi⟩).label hfc)
      (hlabs (windows.get ⟨i, hi⟩) (List.get_mem windows i hi))).2.2.2.2

/-- A concrete single-order fetch and a one-window plan for instantiating
the run-level theorems. -/
def exOrder : Order := [("Customer/Group/Name", ""), ("Id", "1")]

def exFetch : String → List Order := fun _ => [exOrder]

def exFetchEmpty : String → List Order := fun _ => []

def exW3 : WindowInfo :=
  { label := "2025.09.29-2025.10.05", monthsHit := ["2025-09", "2025-10"] }

lemma exFetch_clean : fetchClean exFetch := by
  intro l o ho kv hkv
  have ho' : o = exOrder := List.mem_singleton.mp ho
  subst ho'
  have hkv' : kv = ("Customer/Group/Name", "") ∨ kv = ("Id", "1") := by
    simpa [exOrder] using hkv
  rcases hkv' with rfl | rfl <;> decide

lemma exFetchEmpty_clean : fetchClean exFetchEmpty := by
  intro l o ho
  exact absurd ho (List.not_mem_nil o)

lemma exW3_labels : ∀ w, w ∈ [exW3] → labelClean w.label := by
  intro w hw
  have hw' : w = exW3 := List.mem_singleton.mp hw
  subst hw'
  unfold labelClean
  decide

lemma noFileClean : fileHeadersClean (none : Option Workbook) := by
  intro n ws h
  exact Option.noConfusion h

theorem claim_C3_skip_iff_witness :
    Ev.fetched (List.get [exW3] ⟨0, by decide⟩).label ∈
      (processWindow exFetch 2
        (buildStateAfter exFetch 2 (none : Option Workbook)
          (List.take 0 [exW3]))
        (List.get [exW3] ⟨0, by decide⟩)).2 ∧
    fileHasLabel
      (processWindow exFetch 2
        (buildStateAfter exFetch 2 (none : Option Workbook)
          (List.take 0 [exW3]))
        (List.get [exW3] ⟨0, by decide⟩)).1.file "2025-09"
      (List.get [exW3] ⟨0, by decide⟩).label = true := by
  have h := claim_C3_skip_iff exFetch 2 none [exW3] 0 (by decide)
    exFetch_clean exW3_labels noFileClean (by decide)
  constructor
  · by_contra hnot
    have hlab := h.1.mp hnot "2025-09" (by decide)
    exact absurd hlab (by decide)
  · exact h.2.2.2 (by decide) "2025-09" (by decide)

/-- C4.  Running the build a second time over the same window list with
the same fetched data, starting from the file the first run saved, leaves
the file identical — the second run performs no write and no save for any
window, only (at most) fetches. -/
theorem claim_C4_second_run_idempotent (fetch : String → List Order)
    (spacer : Nat) (file0 : Option Workbook) (windows : List WindowInfo)
    (hfc : fetchClean fetch)
    (hlabs : ∀ w, w ∈ windows → labelClean w.label)
    (hfile : fileHeadersClean file0) :
    (runBuild fetch spacer
      (runBuild fetch spacer file0 windows).1.file windows).1.file =
      (runBuild fetch spacer file0 windows).1.file ∧
    (∀ ev, ev ∈ (runBuild fetch spacer
        (runBuild fetch spacer file0 windows).1.file windows).2 →
      ∃ l, ev = Ev.fetched l) := by
  have hcov : ∀ w, w ∈ windows →
      (xmlOrdersToDf (fetch w.label)).rows ≠ [] →
      ∀ n, n ∈ w.monthsHit →
        fileHasLabel (runBuild fetch spacer file0 windows).1.file n
          w.label = true := by
    intro w hw hrows n hn
    rw [runBuild_fst]
    exact foldWindows_coverage fetch spacer hfc windows (initState file0)
      (initState_inv file0 hfile) hlabs w hw hrows n hn
  obtain ⟨A, B⟩ := foldWindows_silent fetch spacer
    (runBuild fetch spacer file0 windows).1.file windows hcov []
  constructor
  · have h1 : (runBuild fetch spacer
        (runBuild fetch spacer file0 windows).1.file windows).1 =
        initState ((runBuild fetch spacer file0 windows).1.file) := A
    rw [h1]
    rfl
  · intro ev hev
    rcases B ev hev with h0 | hl
    · exact absurd h0 (List.not_mem_nil ev)
    · exact hl

theorem claim_C4_second_run_idempotent_witness :
    (runBuild exFetch 2
      (runBuild exFetch 2 (none : Option Workbook) [exW3]).1.file
      [exW3]).1.file =
      (runBuild exFetch 2 (none : Option Workbook) [exW3]).1.file :=
  (claim_C4_second_run_idempotent exFetch 2 none [exW3]
    exFetch_clean exW3_labels noFileClean).1

/-- C9.  A window whose fetched record set comes back empty writes
nothing and saves nothing: the state (file and caches) is returned
unchanged and the only event is the fetch.  Since its label therefore
stays absent from every touched sheet, a subsequent run primed from the
resulting file fetches the window again. -/
theorem claim_C9_empty_fetch (fetch : String → List Order) (spacer : Nat)
    (file0 : Option Workbook) (windows : List WindowInfo) (i : Nat)
    (hi : i < windows.length)
    (hfc : fetchClean fetch)
    (hlabs : ∀ w, w ∈ windows → labelClean w.label)
    (hfile : fileHeadersClean file0)
    (hempty :
      (xmlOrdersToDf (fetch (windows.get ⟨i, hi⟩).label)).rows = [])
    (habsent : ∀ n, n ∈ (windows.get ⟨i, hi⟩).monthsHit →
      fileHasLabel
        (buildStateAfter fetch spacer file0 (windows.take i)).file n
        (windows.get ⟨i, hi⟩).label = false) :
    processWindow fetch spacer
        (buildStateAfter fetch spacer file0 (windows.take i))
        (windows.get ⟨i, hi⟩) =
      (buildStateAfter fetch spacer file0 (windows.take i),
        [Ev.fetched (windows.get ⟨i, hi⟩).label]) ∧
    Ev.fetched (windows.get ⟨i, hi⟩).label ∈
      (processWindow fetch spacer
        (initState
          (buildStateAfter fetch spacer file0 (windows.take i)).file)
        (windows.get ⟨i, hi⟩)).2 := by
  have hInv : Inv (buildStateAfter fetch spacer file0 (windows.take i)) :=
    (foldWindows_inv fetch spacer hfc (windows.take i) (initState file0)
      (initState_inv file0 hfile)
      (fun w hw => hlabs w (List.take_subset i windows hw))).1
  constructor
  · have hskip : ¬ (((!(windows.get ⟨i, hi⟩).monthsHit.isEmpty) &&
        (windows.get ⟨i, hi⟩).monthsHit.all
          (fun s => sheetHasLabel
            (buildStateAfter fetch spacer file0 (windows.take i)) s
            (windows.get ⟨i, hi⟩).label)) = true) := by
      intro hs
      obtain ⟨h1, hall⟩ := (Bool.and_eq_true _ _).mp hs
      have hne : (windows.get ⟨i, hi⟩).monthsHit ≠ [] := by
        intro hnil
        rw [hnil] at h1
        exact Bool.noConfusion h1
      obtain ⟨n0, hn0⟩ := List.exists_mem_of_ne_nil _ hne
      have hlab := List.all_eq_true.mp hall n0 hn0
      rw [sheetHasLabel_eq_fileHasLabel _ hInv, habsent n0 hn0] at hlab
      exact Bool.noConfusion hlab
    rw [processWindow_eq, if_neg hskip, if_pos (by rw [hempty]; rfl)]
  · apply (processWindow_fetched_iff _ _ _ _).mpr
    intro hs
    obtain ⟨h1, hall⟩ := (Bool.and_eq_true _ _).mp hs
    have hne : (windows.get ⟨i, hi⟩).monthsHit ≠ [] := by
      intro hnil
      rw [hnil] at h1
      exact Bool.noConfusion h1
    obtain ⟨n0, hn0⟩ := List.exists_mem_of_ne_nil _ hne
    have hlab := List.all_eq_true.mp hall n0 hn0
    rw [sheetHasLabel_initState, habsent n0 hn0] at hlab
    exact Bool.noConfusion hlab

theorem claim_C9_empty_fetch_witness :
    processWindow exFetchEmpty 2
        (buildStateAfter exFetchEmpty 2 (none : Option Workbook)
          (List.take 0 [exW3]))
        (List.get [exW3] ⟨0, by decide⟩) =
      (buildStateAfter exFetchEmpty 2 (none : Option Workbook)
        (List.take 0 [exW3]),
        [Ev.fetched (List.get [exW3] ⟨0, by decide⟩).label]) :=
  (claim_C9_empty_fetch exFetchEmpty 2 none [exW3] 0 (by decide)
    exFetchEmpty_clean exW3_labels noFileClean (by decide)
    (by decide)).1

end Unas
